import Mathlib

/-!
Verification of the ESO Build Optimizer companion agent against its
natural-language specification.

The development shallowly embeds the relevant parts of the source:

* `src/companion/watcher.py` — the `LuaTableParser` class (methods `parse`,
  `_parse_table`, `_parse_value`, `_parse_string`, `_parse_long_string`,
  `_skip_whitespace`), embedded over `List Char`.  A Python position `pos`
  into `content` is represented by the remaining suffix `content.drop pos`.
  Python exceptions are represented by the `PyErr` inductive and `Except`.
* `src/companion/sync.py` — `RateLimiter.acquire`, `SyncClient._request`,
  `SyncClient._calculate_backoff`, `SyncItem.__post_init__`,
  `LocalCache.enqueue` / `dequeue_batch` / `update_item_status`, and
  `SyncClient._process_upload_batch`.

Machine floats appearing in the source (Lua float literals, backoff delays,
timestamps) are modelled by exact rationals; no claim here depends on IEEE
rounding.  Recursion in the Python parser is depth-bounded in the embedding
by an explicit fuel argument; exhausting it is represented by
`PyErr.recursionError`, the analogue of the interpreter recursion limit.
-/

set_option maxHeartbeats 1000000

namespace ESOBO

/-- Python exceptions that the embedded code can raise.  `luaParseError`
embeds `LuaParseError` from watcher.py; `valueError`, `typeError` and
`keyError` embed the built-in exceptions of the same names;
`recursionError` stands for exceeding the recursion/fuel limit. -/
inductive PyErr where
  | luaParseError (msg : String)
  | valueError (msg : String)
  | typeError (msg : String)
  | keyError (msg : String)
  | recursionError
  deriving Repr, DecidableEq

/-- Values produced by the Lua table parser (Python side: str, int, float,
bool, None, list, dict).  Floats carry their exact rational denotation. -/
inductive LuaValue where
  | vstr (s : String)
  | vint (n : Int)
  | vfloat (q : ℚ)
  | vbool (b : Bool)
  | vnil
  | vseq (l : List LuaValue)
  | vmap (l : List (LuaValue × LuaValue))
  deriving Repr

/-- A Python dict with insertion order, as built by `_parse_table`. -/
abbrev PyDict := List (LuaValue × LuaValue)

def lbraceChar : Char := Char.ofNat 123

def rbraceChar : Char := Char.ofNat 125

def backslashChar : Char := Char.ofNat 92

def dquoteChar : Char := Char.ofNat 34

def squoteChar : Char := Char.ofNat 39

/-- Python `str.isspace` restricted to the ASCII whitespace the files
contain: space, tab, newline, vertical tab, form feed, carriage return. -/
def pyIsSpace (c : Char) : Bool :=
  c == ' ' || c == Char.ofNat 9 || c == Char.ofNat 10 || c == Char.ofNat 11 ||
  c == Char.ofNat 12 || c == Char.ofNat 13

def isHexDigitC (c : Char) : Bool :=
  c.isDigit || ('a' ≤ c && c ≤ 'f') || ('A' ≤ c && c ≤ 'F')

def isIdentStartC (c : Char) : Bool :=
  c.isAlpha || c == '_'

def isIdentContC (c : Char) : Bool :=
  isIdentStartC c || c.isDigit

/-- The numeric value Python uses when comparing a parsed value with an
int (`key != array_index`, `isinstance` aside): ints, floats and bools all
live in one numeric equivalence class (`True == 1`, `1.0 == 1`). -/
def pyNum : LuaValue → Option ℚ
  | .vint n => some (n : ℚ)
  | .vfloat q => some q
  | .vbool b => some (if b then 1 else 0)
  | _ => none

/-- Python `==` as used on dict keys and on `key != array_index`:
numeric values compare by value across int/float/bool; strings by
content; `None` equals itself; values of unrelated kinds are unequal.
(List/dict structural equality is irrelevant here: tables are unhashable
as keys and never equal an int.) -/
def pyEqKey (a b : LuaValue) : Bool :=
  match pyNum a, pyNum b with
  | some x, some y => x == y
  | _, _ =>
    match a, b with
    | .vstr s, .vstr t => s == t
    | .vnil, .vnil => true
    | _, _ => false

/-- Python `value == (array_index : int)`. -/
def pyEqKeyInt (a : LuaValue) (n : Int) : Bool :=
  pyEqKey a (.vint n)

/-- Python `isinstance(k, int)` on parsed values (`bool` is a subclass of
`int` in Python). -/
def isPyInt : LuaValue → Bool
  | .vint _ => true
  | .vbool _ => true
  | _ => false

/-- A value is usable as a Python dict key (hashable): everything the
parser produces except lists and dicts. -/
def isHashable : LuaValue → Bool
  | .vseq _ => false
  | .vmap _ => false
  | _ => true

/-- CPython dict assignment `d[k] = v`: if an equal key is present its
value is replaced in place (the originally inserted key object is kept),
otherwise the pair is appended; unhashable keys raise `TypeError`. -/
def dictSet (d : PyDict) (k v : LuaValue) : Except PyErr PyDict :=
  if isHashable k then .ok (go d)
  else .error (.typeError ("unhashable type"))
where
  go : PyDict → PyDict
    | [] => [(k, v)]
    | (k0, v0) :: rest => if pyEqKey k0 k then (k0, v) :: rest else (k0, v0) :: go rest

/-- CPython dict lookup `d[k]` (up to the `KeyError` raised when absent,
returned as `none` here). -/
def dictGet (d : PyDict) (k : LuaValue) : Option LuaValue :=
  match d with
  | [] => none
  | (k0, v0) :: rest => if pyEqKey k0 k then some v0 else dictGet rest k

/-- Suffix of the input starting at the first occurrence of two
consecutive right brackets, or `none` — `content.find(rbrackets)`. -/
def findRBrackets : List Char → Option (List Char × List Char)
  | [] => none
  | [_] => none
  | c1 :: c2 :: rest =>
    if c1 == ']' && c2 == ']' then some ([], rest)
    else
      match findRBrackets (c2 :: rest) with
      | some (pre, post) => some (c1 :: pre, post)
      | none => none

/-- Suffix of the input just past the first newline, or `none`. -/
def dropPastNewline : List Char → Option (List Char)
  | [] => none
  | c :: rest => if c == Char.ofNat 10 then some rest else dropPastNewline rest

/-- One fueled pass of `LuaTableParser._skip_whitespace`: skip whitespace,
single-line comments (up to and including the newline, or to the end) and
multi-line comments (up to and including the closing brackets, or to the
end).  The fuel only needs to exceed the number of loop iterations; every
iteration consumes at least one character. -/
def skipWsF : ℕ → List Char → List Char
  | 0, cs => cs
  | n + 1, cs =>
    match cs with
    | [] => []
    | c :: rest =>
      if pyIsSpace c then skipWsF n rest
      else if c == '-' then
        match rest with
        | c2 :: rest2 =>
          if c2 == '-' then
            match rest2 with
            | c3 :: c4 :: rest4 =>
              if c3 == '[' && c4 == '[' then
                match findRBrackets rest4 with
                | some (_, post) => skipWsF n post
                | none => []
              else
                match dropPastNewline rest2 with
                | some post => skipWsF n post
                | none => []
            | _ =>
              match dropPastNewline rest2 with
              | some post => skipWsF n post
              | none => []
          else cs
        | [] => cs
      else cs

/-- `_skip_whitespace(content, pos)`, on the suffix at `pos`. -/
def skipWs (cs : List Char) : List Char :=
  skipWsF (cs.length + 1) cs

def digitsToNat (l : List Char) : ℕ :=
  l.foldl (fun a c => a * 10 + (c.toNat - 48)) 0

def hexDigitVal (c : Char) : ℕ :=
  if c.isDigit then c.toNat - 48
  else if 'a' ≤ c && c ≤ 'f' then c.toNat - 87
  else c.toNat - 55

def hexDigitsToNat (l : List Char) : ℕ :=
  l.foldl (fun a c => a * 16 + hexDigitVal c) 0

/-- Greedy match of the decimal alternative of the numeric token regex,
`digits dot? digits* (exponent sign? digits+)?`; the optional exponent
group is dropped when no digit follows the `e`, exactly as the regex
backtracks. -/
def matchDecimal (cs : List Char) : Option (List Char × List Char) :=
  let d := cs.takeWhile Char.isDigit
  let r := cs.dropWhile Char.isDigit
  if d.isEmpty then none
  else
    let fr : List Char × List Char :=
      match r with
      | c :: r1 =>
        if c == '.' then (c :: r1.takeWhile Char.isDigit, r1.dropWhile Char.isDigit)
        else ([], r)
      | [] => ([], r)
    let ex : List Char × List Char :=
      match fr.2 with
      | e :: r1 =>
        if e == 'e' || e == 'E' then
          match r1 with
          | s :: r2b =>
            if s == '+' || s == '-' then
              let d3 := r2b.takeWhile Char.isDigit
              if d3.isEmpty then ([], fr.2) else (e :: s :: d3, r2b.dropWhile Char.isDigit)
            else
              let d3 := r1.takeWhile Char.isDigit
              if d3.isEmpty then ([], fr.2) else (e :: d3, r1.dropWhile Char.isDigit)
          | [] => ([], fr.2)
        else ([], fr.2)
      | [] => ([], fr.2)
    some (d ++ fr.1 ++ ex.1, ex.2)

/-- The unsigned part of the numeric token regex: the `0x`-hex alternative
is tried first (regex alternation is ordered); if it has no hex digit the
decimal alternative is tried at the same position. -/
def matchNumBody (cs : List Char) : Option (List Char × List Char) :=
  match cs with
  | '0' :: 'x' :: rest =>
    let h := rest.takeWhile isHexDigitC
    if h.isEmpty then matchDecimal cs
    else some ('0' :: 'x' :: h, rest.dropWhile isHexDigitC)
  | _ => matchDecimal cs

/-- The full numeric token regex with its optional leading minus. -/
def matchNumber (cs : List Char) : Option (List Char × List Char) :=
  match cs with
  | c :: rest =>
    if c == '-' then
      match matchNumBody rest with
      | some (t, r) => some (c :: t, r)
      | none => none
    else matchNumBody cs
  | [] => none

/-- Python built-in `float(token)`: accepts an optionally signed decimal
literal with optional fraction and exponent; anything else (in particular
a hex literal) raises `ValueError`.  The result is the exact rational
value of the literal; IEEE rounding is abstracted. -/
def pyFloat (tok : List Char) : Except PyErr ℚ :=
  let sgncs : ℚ × List Char :=
    match tok with
    | c :: rest =>
      if c == '-' then (-1, rest) else if c == '+' then (1, rest) else (1, tok)
    | [] => (1, tok)
  let cs := sgncs.2
  let intd := cs.takeWhile Char.isDigit
  let r1 := cs.dropWhile Char.isDigit
  let fr : List Char × List Char :=
    match r1 with
    | c :: rest =>
      if c == '.' then (rest.takeWhile Char.isDigit, rest.dropWhile Char.isDigit)
      else ([], r1)
    | [] => ([], r1)
  if intd.isEmpty && fr.1.isEmpty then
    .error (.valueError ("could not convert string to float: " ++ String.mk tok))
  else
    let mant : ℚ := ((digitsToNat (intd ++ fr.1) : ℤ) : ℚ) / ((10 : ℚ) ^ fr.1.length)
    match fr.2 with
    | [] => .ok (sgncs.1 * mant)
    | e :: rest =>
      if e == 'e' || e == 'E' then
        let es : ℤ × List Char :=
          match rest with
          | c :: r => if c == '-' then (-1, r) else if c == '+' then (1, r) else (1, rest)
          | [] => (1, rest)
        let ed := es.2.takeWhile Char.isDigit
        let r3 := es.2.dropWhile Char.isDigit
        if ed.isEmpty || !r3.isEmpty then
          .error (.valueError ("could not convert string to float: " ++ String.mk tok))
        else .ok (sgncs.1 * mant * (10 : ℚ) ^ (es.1 * (digitsToNat ed : ℤ)))
      else .error (.valueError ("could not convert string to float: " ++ String.mk tok))

/-- Python built-in `int(token)` (base 10). -/
def pyIntDec (tok : List Char) : Except PyErr Int :=
  let sgncs : Int × List Char :=
    match tok with
    | c :: rest =>
      if c == '-' then (-1, rest) else if c == '+' then (1, rest) else (1, tok)
    | [] => (1, tok)
  let d := sgncs.2.takeWhile Char.isDigit
  if d.isEmpty || !(sgncs.2.dropWhile Char.isDigit).isEmpty then
    .error (.valueError ("invalid literal for int with base 10: " ++ String.mk tok))
  else .ok (sgncs.1 * (digitsToNat d : Int))

/-- Python built-in `int(token, 16)` on the `0x`-prefixed tokens the
parser feeds it. -/
def pyIntHex (tok : List Char) : Except PyErr Int :=
  let sgncs : Int × List Char :=
    match tok with
    | c :: rest => if c == '-' then (-1, rest) else (1, tok)
    | [] => (1, tok)
  match sgncs.2 with
  | '0' :: 'x' :: rest =>
    let h := rest.takeWhile isHexDigitC
    if h.isEmpty || !(rest.dropWhile isHexDigitC).isEmpty then
      .error (.valueError ("invalid literal for int with base 16: " ++ String.mk tok))
    else .ok (sgncs.1 * (hexDigitsToNat h : Int))
  | _ => .error (.valueError ("invalid literal for int with base 16: " ++ String.mk tok))

def startsWithS (s : String) (cs : List Char) : Bool :=
  s.data.isPrefixOf cs

/-- Lines 446-474 of watcher.py: the token alternation
`number | true | false | nil | identifier` (ordered, no word boundary),
and the conversion of a numeric token.  The conversion reproduces the
source exactly: a token containing a dot or the letter e/E is handed to
`float(...)` FIRST, before the `0x` prefix is examined, so a hex token
whose digits contain e or E reaches `float` and raises `ValueError`. -/
def parseScalar (cs : List Char) : Except PyErr (LuaValue × List Char) :=
  match matchNumber cs with
  | some (tok, rest) =>
    if tok.contains '.' || tok.contains 'e' || tok.contains 'E' then
      match pyFloat tok with
      | .ok q => .ok (.vfloat q, rest)
      | .error e => .error e
    else if startsWithS ("0x") tok || startsWithS ("-0x") tok then
      match pyIntHex tok with
      | .ok n => .ok (.vint n, rest)
      | .error e => .error e
    else
      match pyIntDec tok with
      | .ok n => .ok (.vint n, rest)
      | .error e => .error e
  | none =>
    if startsWithS ("true") cs then .ok (.vbool true, cs.drop 4)
    else if startsWithS ("false") cs then .ok (.vbool false, cs.drop 5)
    else if startsWithS ("nil") cs then .ok (.vnil, cs.drop 3)
    else
      match cs with
      | c :: _ =>
        if isIdentStartC c then
          .ok (.vstr (String.mk (cs.takeWhile isIdentContC)), cs.dropWhile isIdentContC)
        else .error (.luaParseError ("Cannot parse value"))
      | [] => .error (.luaParseError ("Cannot parse value"))

/-- Escape resolution of `_parse_string`: backslash-n/t/r become control
characters, any other escaped character (including the quote and the
backslash itself) passes through unchanged. -/
def escChar (e : Char) : Char :=
  if e == 'n' then Char.ofNat 10
  else if e == 't' then Char.ofNat 9
  else if e == 'r' then Char.ofNat 13
  else e

/-- Body of `_parse_string` after the opening quote: collect characters
until the closing quote, resolving escapes. -/
def parseStrBody (quote : Char) : List Char → Except PyErr (List Char × List Char)
  | [] => .error (.luaParseError ("Unterminated string"))
  | c :: rest =>
    if c == quote then .ok ([], rest)
    else if c == backslashChar then
      match rest with
      | [] => .error (.luaParseError ("Unexpected end of string"))
      | e :: rest2 =>
        match parseStrBody quote rest2 with
        | .ok (body, rem) => .ok (escChar e :: body, rem)
        | .error err => .error err
    else
      match parseStrBody quote rest with
      | .ok (body, rem) => .ok (c :: body, rem)
      | .error err => .error err

/-- Regex `identifier \s* =` used both for `identifier = value` pairs
inside tables (line 383) and, extended by `\s* brace`, for top-level
assignments (line 283).  Greedy identifier; no backtracking can succeed,
as in the Python regex.  Returns the name and the suffix after `=`. -/
def matchIdentEq (cs : List Char) : Option (String × List Char) :=
  match cs with
  | c :: _ =>
    if isIdentStartC c then
      let idt := cs.takeWhile isIdentContC
      let r1 := (cs.dropWhile isIdentContC).dropWhile pyIsSpace
      match r1 with
      | e :: r2 => if e == '=' then some (String.mk idt, r2) else none
      | [] => none
    else none
  | [] => none

/-- One `key/value` entry of the `_parse_table` loop (lines 350-399): a
bracketed key, an `identifier = value` pair, or a bare value.  Returns
the key, the value, the updated `array_index` and `is_array`, and the
remaining input.  `pv` is `_parse_value`. -/
def parseEntry (pv : List Char → Except PyErr (LuaValue × List Char))
    (cs : List Char) (ai : Int) (isA : Bool) :
    Except PyErr (LuaValue × LuaValue × Int × Bool × List Char) :=
  match cs with
  | c :: rest =>
    if c == '[' then
      match pv (skipWs rest) with
      | .error e => .error e
      | .ok (key, cs2) =>
        match skipWs cs2 with
        | c2 :: cs4 =>
          if c2 == ']' then
            match skipWs cs4 with
            | c3 :: cs6 =>
              if c3 == '=' then
                match pv (skipWs cs6) with
                | .error e => .error e
                | .ok (value, cs8) =>
                  if pyEqKeyInt key ai then .ok (key, value, ai + 1, isA, cs8)
                  else .ok (key, value, ai, false, cs8)
              else .error (.luaParseError ("Expected equals sign"))
            | [] => .error (.luaParseError ("Expected equals sign"))
          else .error (.luaParseError ("Expected right bracket"))
        | [] => .error (.luaParseError ("Expected right bracket"))
    else if isIdentStartC c then
      match matchIdentEq cs with
      | some (name, cs1) =>
        match pv (skipWs cs1) with
        | .error e => .error e
        | .ok (value, cs3) => .ok (.vstr name, value, ai, false, cs3)
      | none =>
        match pv cs with
        | .error e => .error e
        | .ok (value, cs1) => .ok (.vint ai, value, ai + 1, isA, cs1)
    else
      match pv cs with
      | .error e => .error e
      | .ok (value, cs1) => .ok (.vint ai, value, ai + 1, isA, cs1)
  | [] => .error (.luaParseError ("Unexpected end of content in table"))

/-- The `while` loop of `_parse_table` (lines 339-406): parse entries and
separators until the closing brace (left at the head of the returned
suffix) or the end of input.  Returns the dict, the final `array_index`
and `is_array`, and the remaining suffix.  Fuel bounds the number of
iterations; each iteration consumes at least one character, so
`parseTableAux` below always supplies enough. -/
def parseTableBody (pv : List Char → Except PyErr (LuaValue × List Char)) :
    ℕ → List Char → PyDict → Int → Bool →
    Except PyErr (PyDict × Int × Bool × List Char)
  | 0, _, _, _, _ => .error .recursionError
  | n + 1, cs, acc, ai, isA =>
    match skipWs cs with
    | [] => .error (.luaParseError ("Unexpected end of content in table"))
    | c :: rest =>
      if c == rbraceChar then .ok (acc, ai, isA, c :: rest)
      else
        match parseEntry pv (c :: rest) ai isA with
        | .error e => .error e
        | .ok (key, value, ai2, isA2, cs2) =>
          match dictSet acc key value with
          | .error e => .error e
          | .ok acc2 =>
            let cs3 := skipWs cs2
            let cs4 :=
              match cs3 with
              | c2 :: r2 => if c2 == ',' || c2 == ';' then r2 else cs3
              | [] => cs3
            parseTableBody pv n cs4 acc2 ai2 isA2

def intOfKey : LuaValue → Int
  | .vint n => n
  | .vbool b => if b then 1 else 0
  | _ => 0

/-- Python `max(result.keys())` under the guard that every key is an
`isinstance(..., int)` value (ints and bools, compared numerically). -/
def maxKeyVal : PyDict → Int
  | [] => 0
  | kv :: rest => rest.foldl (fun a kv2 => max a (intOfKey kv2.fst)) (intOfKey kv.fst)

/-- The comprehension `[result[i] for i in range(1, max_key + 1)]`; a
missing key raises `KeyError` exactly as the Python lookup would. -/
def gatherFrom (d : PyDict) : Int → ℕ → Except PyErr (List LuaValue)
  | _, 0 => .ok []
  | i, n + 1 =>
    match dictGet d (.vint i) with
    | some v =>
      match gatherFrom d (i + 1) n with
      | .ok l => .ok (v :: l)
      | .error e => .error e
    | none => .error (.keyError ("missing sequence key"))

/-- Lines 413-419 of `_parse_table`: the post-loop conversion of the dict
to a list when `is_array` is still set, the dict is nonempty, all keys
are `isinstance(..., int)` and the maximal key equals the length. -/
def finalize (isA : Bool) (d : PyDict) : Except PyErr LuaValue :=
  if isA && !d.isEmpty && d.all (fun kv => isPyInt kv.fst) then
    let mx := maxKeyVal d
    if mx = (d.length : Int) then
      match gatherFrom d 1 mx.toNat with
      | .ok l => .ok (.vseq l)
      | .error e => .error e
    else .ok (.vmap d)
  else .ok (.vmap d)

/-- `_parse_table(content, start)` on the suffix at `start`: expect the
opening brace, run the entry loop, expect the closing brace, finalize. -/
def parseTableAux (pv : List Char → Except PyErr (LuaValue × List Char))
    (cs : List Char) : Except PyErr (LuaValue × List Char) :=
  match cs with
  | c :: rest =>
    if c == lbraceChar then
      match parseTableBody pv (rest.length + 1) rest [] 1 true with
      | .error e => .error e
      | .ok (d, _, isA, cs2) =>
        match cs2 with
        | c2 :: rest2 =>
          if c2 == rbraceChar then
            match finalize isA d with
            | .ok v => .ok (v, rest2)
            | .error e => .error e
          else .error (.luaParseError ("Expected right brace"))
        | [] => .error (.luaParseError ("Expected right brace"))
    else .error (.luaParseError ("Expected left brace"))
  | [] => .error (.luaParseError ("Expected left brace"))

/-- `_parse_value(content, pos)` on the suffix at `pos`, with fuel
bounding the nesting depth (the Python recursion limit).  Branch order as
in lines 430-450: table, double-quoted string, single-quoted string,
long-bracket string, scalar token. -/
def parseValueF : ℕ → List Char → Except PyErr (LuaValue × List Char)
  | 0, _ => .error .recursionError
  | n + 1, cs =>
    match skipWs cs with
    | [] => .error (.luaParseError ("Unexpected end of content"))
    | c :: rest =>
      if c == lbraceChar then parseTableAux (fun cs2 => parseValueF n cs2) (c :: rest)
      else if c == dquoteChar then
        match parseStrBody dquoteChar rest with
        | .ok (body, rem) => .ok (.vstr (String.mk body), rem)
        | .error e => .error e
      else if c == squoteChar then
        match parseStrBody squoteChar rest with
        | .ok (body, rem) => .ok (.vstr (String.mk body), rem)
        | .error e => .error e
      else if c == '[' && (match rest with | c2 :: _ => c2 == '[' | [] => false) then
        match findRBrackets (rest.drop 1) with
        | some (pre, post) => .ok (.vstr (String.mk pre), post)
        | none => .error (.luaParseError ("Unterminated long string"))
      else parseScalar (c :: rest)

/-- `parse_table_string(table_string)`: strip, require a leading brace,
parse one table and drop the trailing remainder. -/
def parseTableString (fuel : ℕ) (s : String) : Except PyErr LuaValue :=
  let cs := ((s.data.dropWhile pyIsSpace).reverse.dropWhile pyIsSpace).reverse
  match cs with
  | c :: _ =>
    if c == lbraceChar then
      match parseTableAux (fun cs2 => parseValueF fuel cs2) cs with
      | .ok (v, _) => .ok v
      | .error e => .error e
    else .error (.luaParseError ("Table string must start with a brace"))
  | [] => .error (.luaParseError ("Table string must start with a brace"))

/-- One attempt of the assignment regex `identifier \s* = \s* brace` at
the current position; returns the variable name and the suffix whose head
is the opening brace (`match.start(2)`). -/
def matchAssign (cs : List Char) : Option (String × List Char) :=
  match matchIdentEq cs with
  | some (name, r1) =>
    match r1.dropWhile pyIsSpace with
    | c :: rest => if c == lbraceChar then some (name, c :: rest) else none
    | [] => none
  | none => none

/-- `re.search` of the assignment pattern: leftmost position at which the
pattern matches. -/
def searchAssign : List Char → Option (String × List Char)
  | [] => none
  | c :: rest =>
    match matchAssign (c :: rest) with
    | some res => some res
    | none => searchAssign rest

/-- The `except LuaParseError` test of the scan loop. -/
def isLuaParseError : PyErr → Bool
  | .luaParseError _ => true
  | _ => false

/-- Insertion-ordered update of the top-level result dict (string keys). -/
def strDictSet (d : List (String × LuaValue)) (k : String) (v : LuaValue) :
    List (String × LuaValue) :=
  match d with
  | [] => [(k, v)]
  | (k0, v0) :: rest => if k0 == k then (k0, v) :: rest else (k0, v0) :: strDictSet rest k v

/-- The scan loop of `LuaTableParser.parse` (lines 287-305): find the next
top-level assignment, parse its table; on success record it and continue
after the table, on `LuaParseError` log-and-skip to just past the opening
brace (`match.end()`), on any other exception propagate (the `except`
clause catches only `LuaParseError`). -/
def luaParseLoop : ℕ → List Char → List (String × LuaValue) →
    Except PyErr (List (String × LuaValue))
  | 0, _, _ => .error .recursionError
  | n + 1, cs, acc =>
    match searchAssign cs with
    | none => .ok acc
    | some (name, atBrace) =>
      match parseTableAux (fun cs2 => parseValueF n cs2) atBrace with
      | .ok (v, rest) => luaParseLoop n rest (strDictSet acc name v)
      | .error e =>
        if isLuaParseError e then luaParseLoop n (atBrace.drop 1) acc
        else .error e

/-- `LuaTableParser.parse(lua_content)`. -/
def luaParse (fuel : ℕ) (s : String) : Except PyErr (List (String × LuaValue)) :=
  luaParseLoop fuel s.data []

/-! ## sync.py: retry pipeline -/

/-- `SyncClient._calculate_backoff(attempt)`: delay is
`base_retry_delay * 2 ^ attempt`; jitter adds a quarter of the delay
scaled by `(hash(time.time()) % 100) / 100` (the hash value is the
parameter `k`); the sum is capped at `max_retry_delay`. -/
def calculateBackoff (base cap : ℚ) (attempt : ℕ) (k : ℕ) : ℚ :=
  let delay := base * 2 ^ attempt
  let jitter := delay * (1 / 4) * (((k % 100 : ℕ) : ℚ) / 100)
  min (delay + jitter) cap

/-- Outcome of one HTTP call inside `_request`: a response with a status
code and the already-`int(...)`-parsed optional Retry-After header, or a
transport failure (`httpx.RequestError`). -/
inductive HttpResp where
  | resp (status : ℕ) (retryAfter : Option Int)
  | netErr (msg : String)
  deriving DecidableEq, Repr

/-- The `last_exception` variable of `_request`. -/
inductive LastExc where
  | rateLimited
  | serverErr (status : ℕ)
  | network (msg : String)
  deriving DecidableEq, Repr

/-- How `_request` terminates. `exhausted last` is the final
`raise last_exception or SyncError(...)` after the loop. -/
inductive ReqOutcome where
  | success (attempt : ℕ)
  | authFailure
  | clientError (status : ℕ)
  | exhausted (last : Option LastExc)
  deriving DecidableEq, Repr

/-- Observable behaviour of one `_request` run: its outcome, how many
HTTP calls it issued, how many token refreshes it performed, and the
sleep durations it requested, in order. -/
structure ReqResult where
  outcome : ReqOutcome
  requests : ℕ
  refreshes : ℕ
  waits : List ℚ
  deriving DecidableEq, Repr

/-- The `for attempt in range(self.config.max_retries)` loop of
`SyncClient._request` (lines 899-954).  `script n` is the outcome of the
(n+1)-th HTTP call; `jit` feeds the jitter source of the backoff; the
rate-limiter acquire and the token plumbing are modelled elsewhere
(`acquireAt`) or abstracted (a refresh is recorded, not performed).
Control flow per attempt, exactly as in the source: a 429 raises
`RateLimitError` whose handler sleeps `e.retry_after or backoff` (the
header defaulting to 60 via `int(headers.get(..., 60))`); a 401 on
attempt 0 refreshes once and `continue`s (consuming the attempt), on any
later attempt raises `AuthenticationError`; `raise_for_status` turns
status >= 500 into a backoff retry and any other 4xx into a terminal
`SyncError`; a transport error backoff-retries; otherwise the response is
returned. -/
def requestGo (script : ℕ → HttpResp) (base cap : ℚ) (jit : ℕ → ℕ) :
    List ℕ → ℕ → ℕ → List ℚ → Option LastExc → ReqResult
  | [], reqs, refs, waits, lastE => ⟨.exhausted lastE, reqs, refs, waits⟩
  | attempt :: restA, reqs, refs, waits, lastE =>
    match script reqs with
    | .netErr m =>
      requestGo script base cap jit restA (reqs + 1) refs
        (waits ++ [calculateBackoff base cap attempt (jit attempt)]) (some (.network m))
    | .resp status ra =>
      if status = 429 then
        let retryAfter : Int := ra.getD 60
        let w : ℚ :=
          if retryAfter = 0 then calculateBackoff base cap attempt (jit attempt)
          else (retryAfter : ℚ)
        requestGo script base cap jit restA (reqs + 1) refs
          (waits ++ [w]) (some .rateLimited)
      else if status = 401 then
        if attempt = 0 then
          requestGo script base cap jit restA (reqs + 1) (refs + 1) waits lastE
        else ⟨.authFailure, reqs + 1, refs, waits⟩
      else if 500 ≤ status then
        requestGo script base cap jit restA (reqs + 1) refs
          (waits ++ [calculateBackoff base cap attempt (jit attempt)])
          (some (.serverErr status))
      else if 400 ≤ status then ⟨.clientError status, reqs + 1, refs, waits⟩
      else ⟨.success attempt, reqs + 1, refs, waits⟩

/-- A whole `_request` run: the loop iterates `attempt` over
`range(max_retries)`, i.e. the list `[0, 1, ..., max_retries - 1]`,
entered with empty state. -/
def requestLoop (script : ℕ → HttpResp) (base cap : ℚ) (jit : ℕ → ℕ)
    (maxRetries : ℕ) : ReqResult :=
  requestGo script base cap jit (List.range' 0 maxRetries) 0 0 [] none

/-! ## sync.py: rate limiter -/

/-- State of `RateLimiter`: the two deques of grant timestamps. -/
structure LimiterState where
  minuteWindow : List ℚ
  hourWindow : List ℚ
  deriving DecidableEq, Repr

/-- The prune loops `while window and window[0] < cutoff: popleft()`. -/
def pruneWindow (cutoff : ℚ) (w : List ℚ) : List ℚ :=
  w.dropWhile (fun x => decide (x < cutoff))

/-- One grant of `RateLimiter.acquire` completing at time `now` under the
lock: prune both windows against the rolling cutoffs; if either window is
at capacity the coroutine keeps sleeping (`none`); otherwise the grant
timestamp is appended to both windows. -/
def acquireAt (rpm rph : ℕ) (s : LimiterState) (now : ℚ) : Option LimiterState :=
  let mw := pruneWindow (now - 60) s.minuteWindow
  let hw := pruneWindow (now - 3600) s.hourWindow
  if mw.length < rpm ∧ hw.length < rph then some ⟨mw ++ [now], hw ++ [now]⟩ else none

/-- A chronological sequence of completed `acquire()` grants. -/
def runAcquires (rpm rph : ℕ) : LimiterState → List ℚ → Option LimiterState
  | s, [] => some s
  | s, t :: ts =>
    match acquireAt rpm rph s t with
    | some s2 => runAcquires rpm rph s2 ts
    | none => none

/-! ## sync.py: durable store and batch upload -/

/-- A JSON-serializable Python value (the payloads the store handles). -/
inductive PyJson where
  | jnull
  | jbool (b : Bool)
  | jint (n : Int)
  | jstr (s : String)
  | jarr (l : List PyJson)
  | jobj (l : List (String × PyJson))

def hexDigitChar (n : ℕ) : Char :=
  if n < 10 then Char.ofNat (48 + n) else Char.ofNat (87 + (n - 10))

/-- JSON escaping as `json.dumps` performs it with the default
`ensure_ascii=True`: named escapes for quote, backslash and the common
controls, `u`-escapes for the rest of the controls and all non-ASCII
code points (surrogate-pair details beyond 16 bits abstracted). -/
def escJsonChar (c : Char) : List Char :=
  if c == dquoteChar then [backslashChar, dquoteChar]
  else if c == backslashChar then [backslashChar, backslashChar]
  else if c == Char.ofNat 10 then [backslashChar, 'n']
  else if c == Char.ofNat 9 then [backslashChar, 't']
  else if c == Char.ofNat 13 then [backslashChar, 'r']
  else if c == Char.ofNat 8 then [backslashChar, 'b']
  else if c == Char.ofNat 12 then [backslashChar, 'f']
  else if c.toNat < 32 || 127 ≤ c.toNat then
    [backslashChar, 'u', hexDigitChar (c.toNat % 65536 / 4096), hexDigitChar (c.toNat / 256 % 16),
     hexDigitChar (c.toNat / 16 % 16), hexDigitChar (c.toNat % 16)]
  else [c]

def escJsonString (s : String) : List Char :=
  dquoteChar :: s.data.foldr (fun c acc => escJsonChar c ++ acc) [dquoteChar]

def joinWith (sep : List Char) : List (List Char) → List Char
  | [] => []
  | [x] => x
  | x :: y :: rest => x ++ sep ++ joinWith sep (y :: rest)

/-- Stable insertion by key order, for `sort_keys=True` (Python sorts the
keys as strings, i.e. by code points). -/
def insertByKey (kv : String × List Char) :
    List (String × List Char) → List (String × List Char)
  | [] => [kv]
  | kv0 :: rest => if kv.1 < kv0.1 then kv :: kv0 :: rest else kv0 :: insertByKey kv rest

def sortPairsByKey (l : List (String × List Char)) : List (String × List Char) :=
  l.foldr insertByKey []

/-- `json.dumps(data, sort_keys=True)` (default separators), rendered to
characters.  The `default=str` argument only matters for non-JSON values,
which the `PyJson` domain excludes. -/
def dumpsChars : PyJson → List Char
  | .jnull => ("null").data
  | .jbool b => if b then ("true").data else ("false").data
  | .jint n => (toString n).data
  | .jstr s => escJsonString s
  | .jarr l => '[' :: (joinWith ((", ").data) (l.attach.map (fun x => dumpsChars x.1)) ++ [']'])
  | .jobj l =>
    lbraceChar ::
      (joinWith ((", ").data)
        ((sortPairsByKey (l.attach.map (fun x => (x.1.1, dumpsChars x.1.2)))).map
          (fun kv => escJsonString kv.1 ++ (": ").data ++ kv.2)) ++ [rbraceChar])
termination_by j => sizeOf j
decreasing_by
  · have h := List.sizeOf_lt_of_mem x.2
    simp at h ⊢
    omega
  · obtain ⟨⟨k, v⟩, hm⟩ := x
    have h := List.sizeOf_lt_of_mem hm
    simp at h ⊢
    omega

/-- SHA-256 hexdigest is a standard-library primitive; no claim depends
on digest internals, only on the digest being a fixed deterministic
function of the encoded payload, so it is modelled as an injective
tagging of its input. -/
def sha256hex (s : String) : String :=
  ("sha256:") ++ s

/-- `SyncItem._calculate_checksum`:
`sha256(json.dumps(self.data, sort_keys=True, default=str)).hexdigest()`. -/
def calculateChecksum (data : PyJson) : String :=
  sha256hex (String.mk (dumpsChars data))

inductive SyncStatus where
  | pending
  | uploading
  | uploaded
  | failed
  | conflict
  deriving DecidableEq, Repr

def SyncStatus.value : SyncStatus → String
  | .pending => "pending"
  | .uploading => "uploading"
  | .uploaded => "uploaded"
  | .failed => "failed"
  | .conflict => "conflict"

/-- `SyncStatus(value)`: the enum constructor from its value. -/
def syncStatusOfValue (s : String) : Option SyncStatus :=
  if s == "pending" then some .pending
  else if s == "uploading" then some .uploading
  else if s == "uploaded" then some .uploaded
  else if s == "failed" then some .failed
  else if s == "conflict" then some .conflict
  else none

inductive SyncDirection where
  | upload
  | download
  deriving DecidableEq, Repr

def SyncDirection.value : SyncDirection → String
  | .upload => "upload"
  | .download => "download"

def syncDirectionOfValue (s : String) : Option SyncDirection :=
  if s == "upload" then some .upload
  else if s == "download" then some .download
  else none

/-- The `SyncItem` dataclass.  `datetime` instants are modelled by their
rational timestamp; `isoformat`/`fromisoformat` on aware UTC datetimes
are a lossless codec, so the TEXT columns holding them are modelled by
the instant they denote (likewise the JSON text column by the value
`json.loads` recovers, since `loads` inverts `dumps` on JSON data). -/
structure SyncItem where
  id : String
  item_type : String
  data : PyJson
  direction : SyncDirection
  status : SyncStatus
  created_at : ℚ
  updated_at : ℚ
  attempts : ℕ
  last_error : Option String
  checksum : Option String

/-- Construction of a `SyncItem` including `__post_init__`: a missing
checksum is computed from the canonical encoding of the payload, a
provided one is kept. -/
def mkSyncItem (id ty : String) (data : PyJson) (dir : SyncDirection)
    (st : SyncStatus) (ca ua : ℚ) (att : ℕ) (le : Option String)
    (chk : Option String) : SyncItem :=
  { id := id, item_type := ty, data := data, direction := dir, status := st,
    created_at := ca, updated_at := ua, attempts := att, last_error := le,
    checksum := match chk with | none => some (calculateChecksum data) | some c => some c }

/-- One row of the `sync_queue` table (id TEXT PRIMARY KEY, enum values
stored as their TEXT `.value`, timestamp and JSON columns modelled by
their denotation as explained on `SyncItem`). -/
structure Row where
  id : String
  item_type : String
  direction : String
  status : String
  data : PyJson
  checksum : Option String
  created_at : ℚ
  updated_at : ℚ
  attempts : ℕ
  last_error : Option String

/-- The tuple `LocalCache.enqueue` binds into its INSERT. -/
def rowOf (item : SyncItem) : Row :=
  { id := item.id, item_type := item.item_type, direction := item.direction.value,
    status := item.status.value, data := item.data, checksum := item.checksum,
    created_at := item.created_at, updated_at := item.updated_at,
    attempts := item.attempts, last_error := item.last_error }

/-- `LocalCache.enqueue`: INSERT OR REPLACE keyed on the primary key
`id` — any existing row with the same id is replaced. -/
def enqueue (store : List Row) (item : SyncItem) : List Row :=
  store.filter (fun r => !(r.id == item.id)) ++ [rowOf item]

/-- ORDER BY created_at ASC (stable insertion sort; SQLite leaves the
order of ties unspecified, which no claim depends on). -/
def insertRow (r : Row) : List Row → List Row
  | [] => [r]
  | r0 :: rest =>
    if r.created_at < r0.created_at then r :: r0 :: rest else r0 :: insertRow r rest

def sortRows (rows : List Row) : List Row :=
  rows.foldr insertRow []

/-- Rebuilding a `SyncItem` from a row as `dequeue_batch` does, running
the enum constructors (which raise `ValueError` on a bad value) and the
dataclass constructor with its `__post_init__`. -/
def decodeRow (r : Row) : Except PyErr SyncItem :=
  match syncDirectionOfValue r.direction, syncStatusOfValue r.status with
  | some d, some s =>
    .ok (mkSyncItem r.id r.item_type r.data d s r.created_at r.updated_at
      r.attempts r.last_error r.checksum)
  | _, _ => .error (.valueError ("not a valid enum value"))

/-- `LocalCache.dequeue_batch(direction, status, limit)`: SELECT rows
matching direction and status, ORDER BY created_at ASC, LIMIT, rebuild. -/
def dequeueBatch (store : List Row) (dir : SyncDirection) (st : SyncStatus)
    (limit : ℕ) : Except PyErr (List SyncItem) :=
  let rows := store.filter (fun r => r.direction == dir.value && r.status == st.value)
  ((sortRows rows).take limit).mapM decodeRow

/-- `LocalCache.update_item_status(item_id, status, error)`: the UPDATE
sets status, last_error, updated_at and increments attempts on rows whose
id matches, leaving every other column and row untouched. -/
def updateItemStatus (store : List Row) (item_id : String) (st : SyncStatus)
    (err : Option String) (tNow : ℚ) : List Row :=
  store.map (fun r =>
    if r.id == item_id then
      { r with
        status := st.value
        last_error := err
        updated_at := tNow
        attempts := r.attempts + 1 }
    else r)

/-- One entry of the server's `results` array for a batch upload. -/
structure ItemResult where
  id : String
  success : Bool
  error : Option String
  deriving DecidableEq, Repr

/-- Running counters of `_process_upload_batch`. -/
structure BatchCounts where
  processed : ℕ
  failed : ℕ
  errors : List String
  deriving DecidableEq, Repr

/-- The `for item_result in response_data.get("results", [])` loop of
`_process_upload_batch`: each server-reported item is marked `uploaded`
or `failed` (with `item_result.get("error", "Unknown error")`)
individually via `update_item_status`, and the counters updated. -/
def processResultsFold (tNow : ℚ) :
    List Row → BatchCounts → List ItemResult → List Row × BatchCounts
  | store, acc, [] => (store, acc)
  | store, acc, r :: rest =>
    if r.success then
      processResultsFold tNow (updateItemStatus store r.id .uploaded none tNow)
        { acc with processed := acc.processed + 1 } rest
    else
      let emsg := r.error.getD ("Unknown error")
      processResultsFold tNow (updateItemStatus store r.id .failed (some emsg) tNow)
        { acc with
          failed := acc.failed + 1
          errors := acc.errors ++ [r.id ++ (": ") ++ emsg] } rest

/-- `by_type.setdefault(item.item_type, []).append(item)`: group the
batch by item type, preserving first-seen type order and item order. -/
def addToGroup (acc : List (String × List SyncItem)) (it : SyncItem) :
    List (String × List SyncItem) :=
  match acc with
  | [] => [(it.item_type, [it])]
  | (ty, l) :: rest =>
    if ty == it.item_type then (ty, l ++ [it]) :: rest else (ty, l) :: addToGroup rest it

def groupByType (items : List SyncItem) : List (String × List SyncItem) :=
  items.foldl addToGroup []

/-- `SyncResult` (the duration field, wall-clock time, is omitted). -/
structure SyncResultModel where
  success : Bool
  items_processed : ℕ
  items_failed : ℕ
  errors : List String
  deriving DecidableEq, Repr

/-- `SyncClient._process_upload_batch(items)`.  The POST of the group
payload and the JSON decoding of its response are abstracted into the
`server` oracle: `.ok results` is a request whose HTTP call succeeded
with that per-item `results` array, `.error e` a `SyncError` raised for
the group, whose handler marks every item of the group failed. -/
def processUploadBatch (store : List Row) (items : List SyncItem)
    (server : String → List SyncItem → Except String (List ItemResult))
    (tNow : ℚ) : List Row × SyncResultModel :=
  if items.isEmpty then (store, ⟨true, 0, 0, []⟩)
  else
    let step := fun (p : List Row × BatchCounts) (g : String × List SyncItem) =>
      match server g.1 g.2 with
      | .ok results => processResultsFold tNow p.1 p.2 results
      | .error e =>
        g.2.foldl (fun q item =>
          (updateItemStatus q.1 item.id .failed (some e) tNow,
           { q.2 with
             failed := q.2.failed + 1
             errors := q.2.errors ++ [item.id ++ (": ") ++ e] })) p
    let fin := (groupByType items).foldl step (store, ⟨0, 0, []⟩)
    (fin.1, ⟨fin.2.failed == 0, fin.2.processed, fin.2.failed, fin.2.errors⟩)

/-- Keys of a dict are, in insertion order, Python-equal to the integer
run `n, n+1, n+2, ...` — the shape `is_array` tracking enforces. -/
def keysRunFrom : PyDict → Int → Bool
  | [], _ => true
  | (k, _) :: rest, n => pyEqKeyInt k n && keysRunFrom rest (n + 1)

/-- The effect of the result-application loop of `_process_upload_batch`
on one row: fold the per-item updates over the server results. -/
def rowFoldStatus (tNow : ℚ) (results : List ItemResult) (row : Row) : Row :=
  results.foldl (fun row r =>
    if row.id == r.id then
      { row with
        status := (if r.success then SyncStatus.uploaded else SyncStatus.failed).value
        last_error := if r.success then none else some (r.error.getD ("Unknown error"))
        updated_at := tNow
        attempts := row.attempts + 1 }
    else row) row

/-! ## Helper lemmas for the Lua parser -/

lemma pyNum_of_eqKeyInt (k : LuaValue) (n : Int) (h : pyEqKeyInt k n = true) :
    pyNum k = some (n : ℚ) := by
  cases k <;> simp [pyEqKeyInt, pyEqKey, pyNum] at h ⊢ <;> simp_all

lemma hashable_of_pyNum (k : LuaValue) (h : (pyNum k).isSome = true) :
    isHashable k = true := by
  cases k <;> simp [pyNum, isHashable] at h ⊢

lemma keysRunFrom_append (d : PyDict) (n : Int) (k v : LuaValue)
    (hd : keysRunFrom d n = true) (hk : pyEqKeyInt k (n + d.length) = true) :
    keysRunFrom (d ++ [(k, v)]) n = true := by
  induction d generalizing n with
  | nil => simp [keysRunFrom] at hk ⊢; simpa using hk
  | cons p t ih =>
    obtain ⟨p1, p2⟩ := p
    simp only [keysRunFrom, Bool.and_eq_true] at hd ⊢
    refine ⟨hd.1, ih (n + 1) hd.2 ?_⟩
    have he : n + 1 + (t.length : Int) = n + (((p1, p2) :: t).length : Int) := by
      simp [List.length_cons]
      ring
    rw [he]
    exact hk

lemma keysRunFrom_nomatch (d : PyDict) (n : Int) (k : LuaValue) (m : Int)
    (hd : keysRunFrom d n = true) (hk : pyNum k = some (m : ℚ))
    (hm : n + d.length ≤ m) :
    ∀ p ∈ d, pyEqKey p.1 k = false := by
  induction d generalizing n with
  | nil => simp
  | cons p t ih =>
    obtain ⟨p1, p2⟩ := p
    simp only [keysRunFrom, Bool.and_eq_true] at hd
    intro q hq
    rcases List.mem_cons.mp hq with hq | hq
    · subst hq
      have h1 := pyNum_of_eqKeyInt p1 n hd.1
      have hne : (n : ℚ) ≠ (m : ℚ) := by
        have hlt : n < m := by
          have := hm
          simp [List.length_cons] at this
          omega
        exact_mod_cast hlt.ne
      simp [pyEqKey, h1, hk, hne]
    · refine ih (n + 1) hd.2 ?_ q hq
      have := hm
      simp [List.length_cons] at this ⊢
      omega

lemma parseEntry_false_flag (pv : List Char → Except PyErr (LuaValue × List Char))
    (cs : List Char) (ai : Int)
    (out : LuaValue × LuaValue × Int × Bool × List Char)
    (h : parseEntry pv cs ai false = .ok out) : out.2.2.2.1 = false := by
  unfold parseEntry at h
  repeat' split at h
  all_goals cases h
  all_goals simp_all

lemma parseEntry_true_flag (pv : List Char → Except PyErr (LuaValue × List Char))
    (cs : List Char) (ai : Int)
    (out : LuaValue × LuaValue × Int × Bool × List Char)
    (h : parseEntry pv cs ai true = .ok out) (hf : out.2.2.2.1 = true) :
    pyEqKeyInt out.1 ai = true ∧ out.2.2.1 = ai + 1 := by
  unfold parseEntry at h
  repeat' split at h
  all_goals cases h
  all_goals simp_all [pyEqKeyInt, pyEqKey, pyNum]

lemma dictSet_go_append (k v : LuaValue) (d : PyDict)
    (hno : ∀ p ∈ d, pyEqKey p.1 k = false) :
    dictSet.go k v d = d ++ [(k, v)] := by
  induction d with
  | nil => rfl
  | cons p t ih =>
    obtain ⟨p1, p2⟩ := p
    have h1 : pyEqKey p1 k = false := hno (p1, p2) (List.mem_cons_self _ _)
    simp [dictSet.go, h1]
    exact ih (fun q hq => hno q (List.mem_cons_of_mem _ hq))

lemma dictSet_append (d : PyDict) (k v : LuaValue) (hh : isHashable k = true)
    (hno : ∀ p ∈ d, pyEqKey p.1 k = false) :
    dictSet d k v = .ok (d ++ [(k, v)]) := by
  unfold dictSet
  rw [if_pos hh, dictSet_go_append k v d hno]

lemma parseTableBody_false_flag (n : ℕ) :
    ∀ (pv : List Char → Except PyErr (LuaValue × List Char)) cs acc ai
      (out : PyDict × Int × Bool × List Char),
      parseTableBody pv n cs acc ai false = .ok out → out.2.2.1 = false := by
  induction n with
  | zero => intro pv cs acc ai out h; simp [parseTableBody] at h
  | succ n ih =>
    intro pv cs acc ai out h
    rw [parseTableBody] at h
    rcases hsk : skipWs cs with _ | ⟨c, rest⟩ <;> rw [hsk] at h <;> dsimp only at h
    · simp at h
    · by_cases hc : (c == rbraceChar) = true
      · rw [if_pos hc] at h
        cases h
        rfl
      · rw [if_neg hc] at h
        cases hent : parseEntry pv (c :: rest) ai false with
        | error e => rw [hent] at h; simp at h
        | ok tup =>
          obtain ⟨key, value, ai2, isA2, cs2⟩ := tup
          rw [hent] at h
          dsimp only at h
          cases hds : dictSet acc key value with
          | error e => rw [hds] at h; simp at h
          | ok acc2 =>
            rw [hds] at h
            dsimp only at h
            have hf : isA2 = false :=
              parseEntry_false_flag pv (c :: rest) ai (key, value, ai2, isA2, cs2) hent
            rw [hf] at h
            exact ih pv _ acc2 ai2 out h

lemma parseTableBody_run (n : ℕ) :
    ∀ (pv : List Char → Except PyErr (LuaValue × List Char)) cs acc ai
      (out : PyDict × Int × Bool × List Char),
      keysRunFrom acc 1 = true → ai = (acc.length : Int) + 1 →
      parseTableBody pv n cs acc ai true = .ok out → out.2.2.1 = true →
      keysRunFrom out.1 1 = true ∧ out.2.1 = (out.1.length : Int) + 1 := by
  induction n with
  | zero => intro pv cs acc ai out _ _ h _; simp [parseTableBody] at h
  | succ n ih =>
    intro pv cs acc ai out hacc hai h hout
    rw [parseTableBody] at h
    rcases hsk : skipWs cs with _ | ⟨c, rest⟩ <;> rw [hsk] at h <;> dsimp only at h
    · simp at h
    · by_cases hc : (c == rbraceChar) = true
      · rw [if_pos hc] at h
        cases h
        exact ⟨hacc, hai⟩
      · rw [if_neg hc] at h
        cases hent : parseEntry pv (c :: rest) ai true with
        | error e => rw [hent] at h; simp at h
        | ok tup =>
          obtain ⟨key, value, ai2, isA2, cs2⟩ := tup
          rw [hent] at h
          dsimp only at h
          cases hds : dictSet acc key value with
          | error e => rw [hds] at h; simp at h
          | ok acc2 =>
            rw [hds] at h
            dsimp only at h
            cases isA2 with
            | false =>
              have hff := parseTableBody_false_flag n pv _ acc2 ai2 out h
              rw [hff] at hout
              exact absurd hout (by simp)
            | true =>
              have hkey : pyEqKeyInt key ai = true ∧ ai2 = ai + 1 :=
                parseEntry_true_flag pv (c :: rest) ai (key, value, ai2, true, cs2) hent rfl
              have hnum : pyNum key = some (ai : ℚ) := pyNum_of_eqKeyInt key ai hkey.1
              have hhash : isHashable key = true :=
                hashable_of_pyNum key (by rw [hnum]; rfl)
              have hno : ∀ p ∈ acc, pyEqKey p.1 key = false := by
                refine keysRunFrom_nomatch acc 1 key ai hacc hnum ?_
                omega
              have hset : dictSet acc key value = .ok (acc ++ [(key, value)]) :=
                dictSet_append acc key value hhash hno
              rw [hds] at hset
              cases hset
              refine ih pv _ (acc ++ [(key, value)]) ai2 out ?_ ?_ h hout
              · refine keysRunFrom_append acc 1 key value hacc ?_
                have h1 : (1 : Int) + (acc.length : Int) = ai := by omega
                rw [h1]
                exact hkey.1
              · simp [List.length_append]
                omega

/-! ## Claim theorems: the Lua table parser -/

/-- C1, counterexample: the table whose bracketed keys are exactly the
integers 1..2 but appear out of order, `[2] then [1]`, is returned as a
Mapping in key order by `parse_table_string`, not reclassified as a
Sequence as the claim states. -/
theorem c1_out_of_order_keys_give_mapping :
    parseTableString 10 ("\x7b [2] = \x22b\x22, [1] = \x22a\x22 \x7d") =
      .ok (.vmap [(.vint 2, .vstr ("b")), (.vint 1, .vstr ("a"))]) := rfl

/-- C1 (amended): a fully parsed table is classified as a Sequence only
when its keys were consumed exactly in the increasing run 1..N — the
`is_array` flag demands each bracketed key equal the running
`array_index` at the moment it is read (so the check is not merely
post-hoc on the key set).  Whenever the entry loop finishes with
`is_array` still set, the collected keys are, in insertion order,
Python-equal to 1, 2, ..., N; the two concrete tables show that the
in-order run `[1], [2]` yields a Sequence while the same key set ordered
`[2], [1]` yields a Mapping. -/
theorem c1_sequence_requires_inorder_keys :
    (∀ (pv : List Char → Except PyErr (LuaValue × List Char)) (n : ℕ)
        (cs : List Char) (out : PyDict × Int × Bool × List Char),
        parseTableBody pv n cs [] 1 true = .ok out → out.2.2.1 = true →
        keysRunFrom out.1 1 = true ∧ out.2.1 = (out.1.length : Int) + 1)
    ∧ parseTableString 10 ("\x7b [1] = \x22a\x22, [2] = \x22b\x22 \x7d") =
        .ok (.vseq [.vstr ("a"), .vstr ("b")])
    ∧ parseTableString 10 ("\x7b [2] = \x22b\x22, [1] = \x22a\x22 \x7d") =
        .ok (.vmap [(.vint 2, .vstr ("b")), (.vint 1, .vstr ("a"))]) := by
  refine ⟨?_, rfl, rfl⟩
  intro pv n cs out h hf
  exact parseTableBody_run n pv cs [] 1 out rfl (by simp) h hf

/-- C1, witness: the invariant theorem applied to the concrete empty
table body terminating immediately at its closing brace. -/
theorem c1_sequence_requires_inorder_keys_witness :
    keysRunFrom ([] : PyDict) 1 = true ∧
      (1 : Int) = ((([] : PyDict).length : ℕ) : Int) + 1 ∧
      parseTableString 10 ("\x7b [1] = \x22a\x22, [2] = \x22b\x22 \x7d") =
        .ok (.vseq [.vstr ("a"), .vstr ("b")]) := by
  have h := c1_sequence_requires_inorder_keys
  have h1 := h.1 (fun cs2 => parseValueF 5 cs2) 3 (("\x7d").data)
    ([], 1, true, ("\x7d").data) rfl rfl
  exact ⟨h1.1, by simp, h.2.1⟩

/-- C2: the numeric-literal conversion of `_parse_value`.  A hex token
whose digits happen to contain the letter e/E (such as `0xdead`) is
routed to `float(...)` — the `"." in token or "e" in token.lower()` test
runs before the `0x` prefix test — and raises `ValueError`, not a
`LuaParseError`; this uncaught `ValueError` escapes even the top-level
`parse`.  Hex tokens without e/E, float literals and plain integers
behave as specified. -/
theorem c2_hex_token_with_e_raises_valueerror :
    parseScalar (("0xdead").data) =
      .error (.valueError ("could not convert string to float: 0xdead"))
    ∧ parseScalar (("0x1f").data) = .ok (.vint 31, [])
    ∧ parseScalar (("3.5").data) = .ok (.vfloat (7 / 2), [])
    ∧ parseScalar (("12e2").data) = .ok (.vfloat 1200, [])
    ∧ parseScalar (("42").data) = .ok (.vint 42, [])
    ∧ luaParse 50 ("X = \x7b [1] = 0xdead \x7d") =
        .error (.valueError ("could not convert string to float: 0xdead")) := by
  refine ⟨rfl, rfl, ?_, ?_, rfl, rfl⟩
  · simp [parseScalar, matchNumber, matchNumBody, matchDecimal, pyFloat, digitsToNat,
      startsWithS]
    norm_num
  · simp [parseScalar, matchNumber, matchNumBody, matchDecimal, pyFloat, digitsToNat,
      startsWithS]
    norm_num

/-- C3, counterexample: after the malformed assignment `A = ... ` (whose
closing brace is missing) fails, scanning resumes just past the opening
brace of `A`, re-enters the interior of the failed table, and parses the
inner pair `b = ...` as a top-level variable — a spurious variable taken
from the interior, which the claim asserts cannot happen; and an input
whose table contains the literal `0xdead` makes `parse` raise a
`ValueError`, contradicting the claim that `parse` never raises. -/
theorem c3_spurious_interior_variable :
    luaParse 50 ("A = \x7b b = \x7b [1] = 2 \x7d") =
      .ok [(("b"), .vseq [.vint 2])]
    ∧ luaParse 50 ("Q = \x7b [1] = 0xdead \x7d") =
        .error (.valueError ("could not convert string to float: 0xdead")) := by
  exact ⟨rfl, rfl⟩

/-- C3 (amended): the scan loop of `parse` never lets a `LuaParseError`
escape — a malformed assignment is logged and skipped, with scanning
resuming just past the matched opening brace, and later well-formed
top-level assignments still appear (second conjunct); but the resume
point lies inside the failed table, so interior `identifier = ...`
patterns can appear as spurious top-level variables, and exceptions other
than `LuaParseError` (the `ValueError` of the hex/e bug, or the recursion
limit) do propagate out of `parse`. -/
theorem c3_parse_catches_only_luaparseerror :
    (∀ (fuel : ℕ) (cs : List Char) (acc : List (String × LuaValue)) (msg : String),
        luaParseLoop fuel cs acc ≠ .error (.luaParseError msg))
    ∧ luaParse 50 ("A = \x7b [ \x7d B = \x7b [1] = 5 \x7d") =
        .ok [(("B"), .vseq [.vint 5])] := by
  refine ⟨?_, rfl⟩
  intro fuel
  induction fuel with
  | zero => intro cs acc msg h; simp [luaParseLoop] at h
  | succ n ih =>
    intro cs acc msg h
    rw [luaParseLoop] at h
    cases hs : searchAssign cs with
    | none => rw [hs] at h; simp at h
    | some p =>
      obtain ⟨name, atBrace⟩ := p
      rw [hs] at h
      dsimp only at h
      cases hp : parseTableAux (fun cs2 => parseValueF n cs2) atBrace with
      | ok vr =>
        obtain ⟨v, rest⟩ := vr
        rw [hp] at h
        dsimp only at h
        exact ih _ _ _ h
      | error e =>
        rw [hp] at h
        dsimp only at h
        by_cases hl : isLuaParseError e = true
        · rw [if_pos hl] at h
          exact ih _ _ _ h
        · rw [if_neg hl] at h
          injection h with he
          subst he
          simp [isLuaParseError] at hl

/-- C3, witness: the no-`LuaParseError` conjunct applied at a concrete
input, together with the concrete recovery behaviour. -/
theorem c3_parse_catches_only_luaparseerror_witness :
    luaParseLoop 7 (("A = \x7b [ \x7d").data) [] ≠
      .error (.luaParseError ("Expected right brace")) := by
  exact c3_parse_catches_only_luaparseerror.1 7 (("A = \x7b [ \x7d").data) []
    ("Expected right brace")

/-! ## Helper lemmas for the retry pipeline -/

lemma requestGo_waits_prefix (script : ℕ → HttpResp) (base cap : ℚ) (jit : ℕ → ℕ) :
    ∀ (atts : List ℕ) (reqs refs : ℕ) (waits : List ℚ) (lastE : Option LastExc),
      waits <+: (requestGo script base cap jit atts reqs refs waits lastE).waits := by
  intro atts
  induction atts with
  | nil => intro reqs refs waits lastE; simp [requestGo]
  | cons a rest ih =>
    intro reqs refs waits lastE
    rw [requestGo]
    cases script reqs with
    | netErr m => exact (List.prefix_append _ _).trans (ih _ _ _ _)
    | resp status ra =>
      dsimp only
      repeat' split
      all_goals first
        | exact ih _ _ _ _
        | exact (List.prefix_append _ _).trans (ih _ _ _ _)
        | simp

lemma requestGo_requests_le (script : ℕ → HttpResp) (base cap : ℚ) (jit : ℕ → ℕ) :
    ∀ (atts : List ℕ) (reqs refs : ℕ) (waits : List ℚ) (lastE : Option LastExc),
      (requestGo script base cap jit atts reqs refs waits lastE).requests
        ≤ reqs + atts.length := by
  intro atts
  induction atts with
  | nil => intro reqs refs waits lastE; simp [requestGo]
  | cons a rest ih =>
    intro reqs refs waits lastE
    rw [requestGo]
    cases script reqs with
    | netErr m => exact le_trans (ih _ _ _ _) (by simp only [List.length_cons]; omega)
    | resp status ra =>
      dsimp only
      repeat' split
      all_goals first
        | (exact le_trans (ih _ _ _ _) (by simp only [List.length_cons]; omega))
        | (dsimp only; simp only [List.length_cons]; omega)

/-! ## Claim theorems: the retry pipeline -/

/-- C4, counterexample: a retryable server error on attempt 0 followed by
a 401 on attempt 1.  The claim says the pipeline refreshes once and
retries regardless of which attempt the 401 occurs on; the code refreshes
only when `attempt == 0`, so this first-ever 401 raises
`AuthenticationError` immediately, with zero refreshes performed. -/
theorem c4_401_after_500_is_fatal_without_refresh :
    (requestLoop (fun n => if n = 0 then .resp 500 none else .resp 401 none) 1 60
      (fun _ => 0) 5).outcome = .authFailure
    ∧ (requestLoop (fun n => if n = 0 then .resp 500 none else .resp 401 none) 1 60
      (fun _ => 0) 5).refreshes = 0 := ⟨rfl, rfl⟩

/-- C4 (amended): the token is refreshed exactly once only when the 401
arrives on attempt 0, and the retry consumes an attempt from the retry
budget (the `continue` advances the loop counter, so a subsequent success
completes as attempt 1); a 401 on any later attempt — even a first 401
that follows a retried server error — immediately raises
`AuthenticationError` with no refresh; in particular a second 401 after
the refresh is fatal. -/
theorem c4_refresh_only_on_attempt_zero :
    ∀ (script : ℕ → HttpResp) (base cap : ℚ) (jit : ℕ → ℕ) (m : ℕ), 2 ≤ m →
      ((script 0 = .resp 401 none → script 1 = .resp 401 none →
          requestLoop script base cap jit m = ⟨.authFailure, 2, 1, []⟩)
        ∧ (script 0 = .resp 401 none → script 1 = .resp 200 none →
          requestLoop script base cap jit m = ⟨.success 1, 2, 1, []⟩)
        ∧ (script 0 = .resp 500 none → script 1 = .resp 401 none →
          (requestLoop script base cap jit m).outcome = .authFailure
          ∧ (requestLoop script base cap jit m).refreshes = 0)) := by
  intro script base cap jit m hm
  obtain ⟨k, rfl⟩ : ∃ k, m = k + 2 := ⟨m - 2, by omega⟩
  have hr : List.range' 0 (k + 2) = 0 :: 1 :: List.range' 2 k := rfl
  refine ⟨?_, ?_, ?_⟩
  · intro h0 h1
    rw [requestLoop, hr, requestGo, h0]
    norm_num
    rw [requestGo, h1]
    norm_num
  · intro h0 h1
    rw [requestLoop, hr, requestGo, h0]
    norm_num
    rw [requestGo, h1]
    norm_num
  · intro h0 h1
    constructor <;>
      (rw [requestLoop, hr, requestGo, h0]
       norm_num
       rw [requestGo, h1]
       norm_num)

/-- C4, witness: two consecutive 401s under the default five attempts. -/
theorem c4_refresh_only_on_attempt_zero_witness :
    requestLoop (fun _ => .resp 401 none) 1 60 (fun _ => 0) 5
      = ⟨.authFailure, 2, 1, []⟩ := by
  exact (c4_refresh_only_on_attempt_zero (fun _ => .resp 401 none) 1 60 (fun _ => 0) 5
    (by norm_num)).1 rfl rfl

/-- C5, counterexample: a 429 without a Retry-After header.  The claim
says the computed exponential backoff for the attempt is used; the code
waits the fixed default 60 — `int(headers.get(..., 60))` — which differs
from the attempt-0 backoff of 1 second under the default configuration. -/
theorem c5_missing_retry_after_waits_default_60 :
    (requestLoop (fun n => if n = 0 then .resp 429 none else .resp 200 none) 1 60
      (fun _ => 0) 5).waits = [60]
    ∧ calculateBackoff 1 60 0 0 = 1 ∧ (60 : ℚ) ≠ 1 := by
  refine ⟨?_, ?_, by norm_num⟩
  · norm_num [requestLoop, requestGo, List.range']
  · norm_num [calculateBackoff]

/-- C5 (amended): on a 429 the pipeline sleeps at least the (nonnegative)
Retry-After value when the header is present — exactly that value when it
is nonzero, and the computed backoff (which is nonnegative) when the
header value is 0, since `e.retry_after or backoff` treats 0 as falsy;
when the header is absent it sleeps the fixed default of 60 seconds, not
the computed backoff; and the loop never issues more than the configured
`max_retries` requests. -/
theorem c5_retry_after_wait_semantics :
    ∀ (script : ℕ → HttpResp) (base cap : ℚ) (jit : ℕ → ℕ) (m : ℕ),
      1 ≤ m → 0 ≤ base → 0 ≤ cap →
      ((∀ t : Int, script 0 = .resp 429 (some t) → 0 ≤ t →
          ∃ w, (requestLoop script base cap jit m).waits.head? = some w ∧ (t : ℚ) ≤ w)
        ∧ (script 0 = .resp 429 none →
          (requestLoop script base cap jit m).waits.head? = some 60)
        ∧ (script 0 = .resp 429 (some 0) →
          (requestLoop script base cap jit m).waits.head? =
            some (calculateBackoff base cap 0 (jit 0)))
        ∧ ∀ s2 : ℕ → HttpResp, (requestLoop s2 base cap jit m).requests ≤ m) := by
  intro script base cap jit m hm hb hc
  obtain ⟨k, rfl⟩ : ∃ k, m = k + 1 := ⟨m - 1, by omega⟩
  have hr : List.range' 0 (k + 1) = 0 :: List.range' 1 k := rfl
  have hhead : ∀ (w : ℚ) (reqs refs : ℕ) (lastE : Option LastExc),
      (requestGo script base cap jit (List.range' 1 k) reqs refs [w] lastE).waits.head?
        = some w := by
    intro w reqs refs lastE
    obtain ⟨tl, htl⟩ :=
      requestGo_waits_prefix script base cap jit (List.range' 1 k) reqs refs [w] lastE
    rw [← htl]
    simp
  refine ⟨?_, ?_, ?_, ?_⟩
  · intro t h0 ht
    rw [requestLoop, hr, requestGo, h0]
    dsimp only
    norm_num
    by_cases h00 : t = 0
    · rw [if_pos h00]
      refine ⟨calculateBackoff base cap 0 (jit 0), hhead _ _ _ _, ?_⟩
      rw [h00]
      push_cast
      exact le_min (by positivity) hc
    · rw [if_neg h00]
      exact ⟨(t : ℚ), hhead _ _ _ _, le_refl _⟩
  · intro h0
    rw [requestLoop, hr, requestGo, h0]
    dsimp only
    norm_num
    exact hhead _ _ _ _
  · intro h0
    rw [requestLoop, hr, requestGo, h0]
    dsimp only
    norm_num
    exact hhead _ _ _ _
  · intro s2
    have h := requestGo_requests_le s2 base cap jit (List.range' 0 (k + 1)) 0 0 [] none
    simpa [List.length_range'] using h

/-- C5, witness: the absent-header conjunct at the counterexample script,
and the attempt bound. -/
theorem c5_retry_after_wait_semantics_witness :
    (requestLoop (fun n => if n = 0 then .resp 429 none else .resp 200 none) 1 60
      (fun _ => 0) 5).waits.head? = some 60
    ∧ (requestLoop (fun _ => .resp 500 none) 1 60 (fun _ => 0) 5).requests ≤ 5 := by
  have h := c5_retry_after_wait_semantics
    (fun n => if n = 0 then .resp 429 none else .resp 200 none) 1 60 (fun _ => 0) 5
    (by norm_num) (by norm_num) (by norm_num)
  exact ⟨h.2.1 rfl, h.2.2.2 (fun _ => .resp 500 none)⟩

/-- C8: the backoff delay `min(base * 2^attempt * (1 + jitter/4), cap)`
is monotonically non-decreasing in the attempt number over every pair of
jitter draws (the jitter fraction `(k % 100)/400` never exceeds 1/4, so
doubling the base delay always dominates it), and never exceeds
`max_retry_delay`. -/
theorem c8_backoff_monotone_and_capped (base cap : ℚ) (hb : 0 ≤ base) :
    (∀ (a b k1 k2 : ℕ), a < b →
      calculateBackoff base cap a k1 ≤ calculateBackoff base cap b k2)
    ∧ ∀ (a k : ℕ), calculateBackoff base cap a k ≤ cap := by
  constructor
  · intro a b k1 k2 hab
    unfold calculateBackoff
    refine min_le_min ?_ le_rfl
    have h1 : ((k1 % 100 : ℕ) : ℚ) ≤ 99 := by
      have hl := Nat.mod_lt k1 (show 0 < 100 by norm_num)
      exact_mod_cast Nat.le_of_lt_succ (by omega)
    have h2 : (0:ℚ) ≤ ((k2 % 100 : ℕ) : ℚ) := by positivity
    have h3 : (0:ℚ) ≤ base * 2 ^ a := by positivity
    have h4 : base * 2 ^ a * 2 ≤ base * 2 ^ b := by
      have hp : (2:ℚ) ^ a * 2 ≤ 2 ^ b := by
        rw [← pow_succ]
        exact pow_le_pow_right₀ (by norm_num) hab
      nlinarith
    nlinarith [h1, h2, h3, h4]
  · intro a k
    exact min_le_right _ _

/-- C8, witness: the largest jitter draw at attempt 0 stays below the
smallest at attempt 1, and a mid-range attempt respects the cap. -/
theorem c8_backoff_monotone_and_capped_witness :
    calculateBackoff 1 60 0 99 ≤ calculateBackoff 1 60 1 0
    ∧ calculateBackoff 1 60 3 7 ≤ 60 := by
  have h := c8_backoff_monotone_and_capped 1 60 (by norm_num)
  exact ⟨h.1 0 1 99 0 (by norm_num), h.2 3 7⟩

/-! ## Helper lemmas for the rate limiter -/

lemma filter_length_mono (p q : ℚ → Bool) :
    ∀ (l : List ℚ), (∀ a ∈ l, p a = true → q a = true) →
      (l.filter p).length ≤ (l.filter q).length := by
  intro l
  induction l with
  | nil => intro _; simp
  | cons a t ih =>
    intro h
    by_cases hp : p a = true
    · rw [List.filter_cons_of_pos hp, List.filter_cons_of_pos (h a (by simp) hp)]
      simpa using ih fun b hb => h b (by simp [hb])
    · rw [List.filter_cons_of_neg (by simpa using hp)]
      refine le_trans (ih fun b hb => h b (by simp [hb])) ?_
      by_cases hq : q a = true
      · rw [List.filter_cons_of_pos hq]; simp
      · rw [List.filter_cons_of_neg (by simpa using hq)]

lemma sorted_dropWhile_lt_eq_filter (c : ℚ) :
    ∀ (l : List ℚ), l.Pairwise (· ≤ ·) →
      l.dropWhile (fun x => decide (x < c)) = l.filter (fun x => decide (c ≤ x)) := by
  intro l
  induction l with
  | nil => intro _; rfl
  | cons a t ih =>
    intro hl
    rcases List.pairwise_cons.mp hl with ⟨ha, ht⟩
    by_cases hac : a < c
    · rw [List.dropWhile_cons_of_pos (by simpa using hac),
        List.filter_cons_of_neg (by simpa using not_le.mpr hac)]
      exact ih ht
    · rw [List.dropWhile_cons_of_neg (by simpa using hac),
        List.filter_cons_of_pos (by simpa using not_lt.mp hac)]
      rw [List.filter_eq_self.mpr]
      intro b hb
      simpa using le_trans (not_lt.mp hac) (ha b hb)

lemma pruneWindow_filter (c : ℚ) (l : List ℚ) (hl : l.Pairwise (· ≤ ·)) :
    pruneWindow c l = l.filter (fun x => decide (c ≤ x)) :=
  sorted_dropWhile_lt_eq_filter c l hl

lemma filter_filter_subsume (c1 c2 : ℚ) (h : c1 ≤ c2) (l : List ℚ) :
    (l.filter (fun x => decide (c1 ≤ x))).filter (fun x => decide (c2 ≤ x))
      = l.filter (fun x => decide (c2 ≤ x)) := by
  rw [List.filter_filter]
  refine List.filter_congr ?_
  intro a _
  by_cases h2 : c2 ≤ a
  · simp [h2, le_trans h h2]
  · simp [h2]

lemma foldr_min_le (ts : List ℚ) : ∀ t ∈ ts, ts.foldr min 0 ≤ t := by
  induction ts with
  | nil => simp
  | cons a l ih =>
    intro t ht
    rcases List.mem_cons.mp ht with h | h
    · subst h; simp [min_le_left]
    · exact le_trans (by simp [min_le_right]) (ih t h)

lemma mem_dropWhile_sorted (T : ℚ) :
    ∀ (l : List ℚ), l.Pairwise (· ≤ ·) →
      ∀ x ∈ l.dropWhile (fun y => decide (y ≤ T)), T < x := by
  intro l
  induction l with
  | nil => simp
  | cons a t ih =>
    intro hl x hx
    rcases List.pairwise_cons.mp hl with ⟨ha, ht⟩
    by_cases haT : a ≤ T
    · rw [List.dropWhile_cons_of_pos (by simpa using haT)] at hx
      exact ih ht x hx
    · rw [List.dropWhile_cons_of_neg (by simpa using haT)] at hx
      rcases List.mem_cons.mp hx with h | h
      · subst h; exact not_le.mp haT
      · exact lt_of_lt_of_le (not_le.mp haT) (ha x h)

lemma runAcquires_window_inv :
    ∀ (ts p : List ℚ) (c1 c2 : ℚ) (rpm rph : ℕ) (s : LimiterState),
      (p ++ ts).Pairwise (· ≤ ·) →
      (∀ t ∈ ts, c1 ≤ t - 60) → (∀ t ∈ ts, c2 ≤ t - 3600) →
      runAcquires rpm rph
        ⟨p.filter (fun x => decide (c1 ≤ x)), p.filter (fun x => decide (c2 ≤ x))⟩ ts
        = some s →
      ∀ (pre : List ℚ) (t : ℚ) (post : List ℚ), ts = pre ++ t :: post →
        (((p ++ pre) ++ [t]).filter (fun x => decide (t - 60 ≤ x))).length ≤ rpm
        ∧ (((p ++ pre) ++ [t]).filter (fun x => decide (t - 3600 ≤ x))).length ≤ rph := by
  intro ts
  induction ts with
  | nil =>
    intro p c1 c2 rpm rph s _ _ _ _ pre t post hdec
    exact absurd hdec (by simp)
  | cons t0 ts2 ih =>
    intro p c1 c2 rpm rph s hsort h1 h2 hrun pre t post hdec
    rw [runAcquires] at hrun
    have hps : p.Pairwise (· ≤ ·) := (List.pairwise_append.mp hsort).1
    have hmw : pruneWindow (t0 - 60) (p.filter (fun x => decide (c1 ≤ x)))
        = p.filter (fun x => decide (t0 - 60 ≤ x)) := by
      rw [pruneWindow_filter _ _ (hps.filter _),
        filter_filter_subsume c1 (t0 - 60) (h1 t0 (by simp)) p]
    have hhw : pruneWindow (t0 - 3600) (p.filter (fun x => decide (c2 ≤ x)))
        = p.filter (fun x => decide (t0 - 3600 ≤ x)) := by
      rw [pruneWindow_filter _ _ (hps.filter _),
        filter_filter_subsume c2 (t0 - 3600) (h2 t0 (by simp)) p]
    unfold acquireAt at hrun
    dsimp only at hrun
    rw [hmw, hhw] at hrun
    by_cases hcap : ((p.filter (fun x => decide (t0 - 60 ≤ x))).length < rpm
        ∧ (p.filter (fun x => decide (t0 - 3600 ≤ x))).length < rph)
    case neg =>
      rw [if_neg hcap] at hrun
      exact absurd hrun (by simp)
    case pos =>
      rw [if_pos hcap] at hrun
      dsimp only at hrun
      obtain ⟨hcap1, hcap2⟩ := hcap
      have hmw2 : p.filter (fun x => decide (t0 - 60 ≤ x)) ++ [t0]
          = (p ++ [t0]).filter (fun x => decide (t0 - 60 ≤ x)) := by
        rw [List.filter_append]
        simp [show t0 - 60 ≤ t0 by linarith]
      have hhw2 : p.filter (fun x => decide (t0 - 3600 ≤ x)) ++ [t0]
          = (p ++ [t0]).filter (fun x => decide (t0 - 3600 ≤ x)) := by
        rw [List.filter_append]
        simp [show t0 - 3600 ≤ t0 by linarith]
      have hsort2 : ((p ++ [t0]) ++ ts2).Pairwise (· ≤ ·) := by
        have hassoc : (p ++ [t0]) ++ ts2 = p ++ t0 :: ts2 := by simp
        rw [hassoc]
        exact hsort
      have ht0le : ∀ u ∈ ts2, t0 ≤ u := by
        have hp2 : (t0 :: ts2).Pairwise (· ≤ ·) := (List.pairwise_append.mp hsort).2.1
        exact (List.pairwise_cons.mp hp2).1
      cases pre with
      | nil =>
        have ht : t0 = t := by
          have hd := hdec
          simp at hd
          exact hd.1
        subst ht
        constructor
        · have hl : ((p ++ []) ++ [t0]).filter (fun x => decide (t0 - 60 ≤ x))
              = p.filter (fun x => decide (t0 - 60 ≤ x)) ++ [t0] := by
            rw [hmw2]
            simp
          rw [hl]
          simp only [List.length_append, List.length_cons, List.length_nil]
          omega
        · have hl : ((p ++ []) ++ [t0]).filter (fun x => decide (t0 - 3600 ≤ x))
              = p.filter (fun x => decide (t0 - 3600 ≤ x)) ++ [t0] := by
            rw [hhw2]
            simp
          rw [hl]
          simp only [List.length_append, List.length_cons, List.length_nil]
          omega
      | cons q pre2 =>
        have hq : t0 = q ∧ ts2 = pre2 ++ t :: post := by
          have hd := hdec
          simp at hd
          exact hd
        obtain ⟨hq1, hq2⟩ := hq
        subst hq1
        have hrun2 : runAcquires rpm rph
            ⟨(p ++ [t0]).filter (fun x => decide (t0 - 60 ≤ x)),
             (p ++ [t0]).filter (fun x => decide (t0 - 3600 ≤ x))⟩ ts2 = some s := by
          rw [← hmw2, ← hhw2]
          exact hrun
        have hres := ih (p ++ [t0]) (t0 - 60) (t0 - 3600) rpm rph s hsort2
          (fun u hu => by have := ht0le u hu; linarith)
          (fun u hu => by have := ht0le u hu; linarith)
          hrun2 pre2 t post hq2
        have hassoc : ((p ++ [t0]) ++ pre2) ++ [t] = (p ++ t0 :: pre2) ++ [t] := by
          simp
        rw [hassoc] at hres
        exact hres

lemma sorted_window_count (W : ℚ) (N : ℕ) :
    ∀ (ts : List ℚ), ts.Pairwise (· ≤ ·) →
      (∀ pre t post, ts = pre ++ t :: post →
        ((pre ++ [t]).filter (fun x => decide (t - W ≤ x))).length ≤ N) →
      ∀ T : ℚ,
        (ts.filter (fun x => decide (T - W ≤ x) && decide (x ≤ T))).length ≤ N := by
  intro ts hs hp T
  have hsplit : ts.takeWhile (fun x => decide (x ≤ T))
      ++ ts.dropWhile (fun x => decide (x ≤ T)) = ts :=
    List.takeWhile_append_dropWhile (fun x => decide (x ≤ T)) ts
  have hgt : ∀ x ∈ ts.dropWhile (fun y => decide (y ≤ T)), T < x :=
    mem_dropWhile_sorted T ts hs
  rcases List.eq_nil_or_concat (ts.takeWhile (fun x => decide (x ≤ T))) with hnil | hcat
  · have hall : ∀ x ∈ ts, T < x := by
      intro x hx
      refine hgt x ?_
      rw [← hsplit, hnil] at hx
      simpa using hx
    have hfe : ts.filter (fun x => decide (T - W ≤ x) && decide (x ≤ T)) = [] := by
      rw [List.filter_eq_nil_iff]
      intro a ha
      have := hall a ha
      simp [not_le.mpr this]
    rw [hfe]
    simp
  · obtain ⟨pre, t, hcat⟩ := hcat
    rw [List.concat_eq_append] at hcat
    have hts : ts = (pre ++ [t]) ++ ts.dropWhile (fun x => decide (x ≤ T)) := by
      conv_lhs => rw [← hsplit, hcat]
    have hts2 : ts = pre ++ t :: ts.dropWhile (fun x => decide (x ≤ T)) := by
      conv_lhs => rw [hts]
      simp
    have htT : t ≤ T := by
      have hmem : t ∈ ts.takeWhile (fun x => decide (x ≤ T)) := by
        rw [hcat]
        simp
      have := List.mem_takeWhile_imp hmem
      simpa using this
    have hbound := hp pre t (ts.dropWhile (fun x => decide (x ≤ T))) hts2
    calc (ts.filter (fun x => decide (T - W ≤ x) && decide (x ≤ T))).length
        = ((pre ++ [t]).filter (fun x => decide (T - W ≤ x) && decide (x ≤ T))).length
          + ((ts.dropWhile (fun x => decide (x ≤ T))).filter
              (fun x => decide (T - W ≤ x) && decide (x ≤ T))).length := by
          conv_lhs => rw [hts]
          rw [List.filter_append, List.length_append]
      _ = ((pre ++ [t]).filter (fun x => decide (T - W ≤ x) && decide (x ≤ T))).length := by
          have hz : (ts.dropWhile (fun x => decide (x ≤ T))).filter
              (fun x => decide (T - W ≤ x) && decide (x ≤ T)) = [] := by
            rw [List.filter_eq_nil_iff]
            intro a ha
            simp [not_le.mpr (hgt a ha)]
          rw [hz]
          simp
      _ ≤ ((pre ++ [t]).filter (fun x => decide (t - W ≤ x))).length := by
          refine filter_length_mono _ _ _ ?_
          intro a _ haP
          simp only [Bool.and_eq_true, decide_eq_true_eq] at haP
          have hta : t - W ≤ a := by linarith [haP.1]
          simpa using hta
      _ ≤ N := hbound

/-! ## Claim theorems: the rate limiter -/

/-- C6: over any chronological sequence of completed `acquire()` grants
starting from the empty limiter, every trailing 60-second window contains
at most `requests_per_minute` of the recorded grant timestamps and every
trailing 3600-second window at most `requests_per_hour` (first conjunct);
a grant attempt while the pruned minute window is at capacity blocks
(second conjunct); and when a later attempt succeeds after the window was
full, the oldest recorded timestamp must have aged out of the window
(third conjunct). -/
theorem c6_rate_limiter_window_bound :
    (∀ (ts : List ℚ) (rpm rph : ℕ) (s : LimiterState),
      ts.Pairwise (· ≤ ·) →
      runAcquires rpm rph ⟨[], []⟩ ts = some s →
      ∀ T : ℚ,
        (ts.filter (fun x => decide (T - 60 ≤ x) && decide (x ≤ T))).length ≤ rpm
        ∧ (ts.filter (fun x => decide (T - 3600 ≤ x) && decide (x ≤ T))).length ≤ rph)
    ∧ (∀ (rpm rph : ℕ) (s : LimiterState) (t : ℚ),
        rpm ≤ (pruneWindow (t - 60) s.minuteWindow).length →
        acquireAt rpm rph s t = none)
    ∧ (∀ (rpm rph : ℕ) (s : LimiterState) (t t2 : ℚ) (s2 : LimiterState) (o : ℚ),
        s.minuteWindow.Pairwise (· ≤ ·) → t ≤ t2 →
        rpm ≤ (pruneWindow (t - 60) s.minuteWindow).length →
        acquireAt rpm rph s t2 = some s2 →
        (pruneWindow (t - 60) s.minuteWindow).head? = some o →
        o < t2 - 60) := by
  refine ⟨?_, ?_, ?_⟩
  · intro ts rpm rph s hsort hrun T
    have hze : (⟨[], []⟩ : LimiterState)
        = ⟨([] : List ℚ).filter (fun x => decide (ts.foldr min 0 - 60 ≤ x)),
           ([] : List ℚ).filter (fun x => decide (ts.foldr min 0 - 3600 ≤ x))⟩ := rfl
    rw [hze] at hrun
    have hinv := runAcquires_window_inv ts [] (ts.foldr min 0 - 60) (ts.foldr min 0 - 3600)
      rpm rph s (by simpa using hsort)
      (fun u hu => by have := foldr_min_le ts u hu; linarith)
      (fun u hu => by have := foldr_min_le ts u hu; linarith)
      hrun
    constructor
    · refine sorted_window_count 60 rpm ts hsort ?_ T
      intro pre t post hdec
      have hb := (hinv pre t post hdec).1
      simpa using hb
    · refine sorted_window_count 3600 rph ts hsort ?_ T
      intro pre t post hdec
      have hb := (hinv pre t post hdec).2
      simpa using hb
  · intro rpm rph s t hfull
    unfold acquireAt
    rw [if_neg]
    intro hcon
    exact absurd hcon.1 (not_lt.mpr hfull)
  · intro rpm rph s t t2 s2 o hsorted htt hfull hacq hhead
    by_contra hno
    have hot : t2 - 60 ≤ o := not_lt.mp hno
    have hA : pruneWindow (t - 60) s.minuteWindow
        = s.minuteWindow.filter (fun x => decide (t - 60 ≤ x)) :=
      pruneWindow_filter _ _ hsorted
    have hAs : (pruneWindow (t - 60) s.minuteWindow).Pairwise (· ≤ ·) := by
      rw [hA]
      exact hsorted.filter _
    have hge : ∀ x ∈ pruneWindow (t - 60) s.minuteWindow, t2 - 60 ≤ x := by
      cases hAc : pruneWindow (t - 60) s.minuteWindow with
      | nil => simp
      | cons a tl =>
        rw [hAc] at hhead
        have hao : a = o := by simpa using hhead
        subst hao
        intro x hx
        rcases List.mem_cons.mp hx with hx | hx
        · subst hx; exact hot
        · rw [hAc] at hAs
          exact le_trans hot ((List.pairwise_cons.mp hAs).1 x hx)
    have hB : pruneWindow (t2 - 60) s.minuteWindow
        = pruneWindow (t - 60) s.minuteWindow := by
      rw [pruneWindow_filter _ _ hsorted,
        ← filter_filter_subsume (t - 60) (t2 - 60) (by linarith) s.minuteWindow, ← hA]
      exact List.filter_eq_self.mpr (fun a ha => by simpa using hge a ha)
    unfold acquireAt at hacq
    by_cases hcap : ((pruneWindow (t2 - 60) s.minuteWindow).length < rpm
        ∧ (pruneWindow (t2 - 3600) s.hourWindow).length < rph)
    · have hlt := hcap.1
      rw [hB] at hlt
      omega
    · rw [if_neg hcap] at hacq
      exact absurd hacq (by simp)

/-- C6, witness: two grants at times 0 and 10 under a minute limit of 2
satisfy the window bound at T = 10, and a limiter whose minute window is
full at time 6 blocks. -/
theorem c6_rate_limiter_window_bound_witness :
    ([(0 : ℚ), 10].filter
        (fun x => decide ((10 : ℚ) - 60 ≤ x) && decide (x ≤ (10 : ℚ)))).length ≤ 2
    ∧ acquireAt 1 1 ⟨[(5 : ℚ)], [(5 : ℚ)]⟩ 6 = none := by
  constructor
  · have hs : ([(0 : ℚ), 10]).Pairwise (· ≤ ·) := by
      simp [List.pairwise_cons]
    have hr : runAcquires 2 2 ⟨[], []⟩ [(0 : ℚ), 10] = some ⟨[0, 10], [0, 10]⟩ := by
      norm_num [runAcquires, acquireAt, pruneWindow, List.dropWhile]
    exact (c6_rate_limiter_window_bound.1 [(0 : ℚ), 10] 2 2 ⟨[0, 10], [0, 10]⟩ hs hr 10).1
  · refine c6_rate_limiter_window_bound.2.1 1 1 ⟨[(5 : ℚ)], [(5 : ℚ)]⟩ 6 ?_
    norm_num [pruneWindow, List.dropWhile]

/-! ## Helper lemmas for the durable store and batch upload -/

lemma rowFoldStatus_id (tNow : ℚ) :
    ∀ (results : List ItemResult) (row : Row),
      (rowFoldStatus tNow results row).id = row.id := by
  intro results
  induction results with
  | nil => intro row; rfl
  | cons r rest ih =>
    intro row
    rw [rowFoldStatus] at *
    rw [List.foldl_cons]
    by_cases h : (row.id == r.id) = true
    · rw [if_pos h]
      exact ih _
    · rw [if_neg h]
      exact ih _

lemma rowFoldStatus_miss (tNow : ℚ) :
    ∀ (results : List ItemResult) (row : Row),
      (∀ r2 ∈ results, ¬(row.id = r2.id)) → rowFoldStatus tNow results row = row := by
  intro results
  induction results with
  | nil => intro row _; rfl
  | cons r rest ih =>
    intro row h
    rw [rowFoldStatus, List.foldl_cons]
    have hne : (row.id == r.id) = false := by
      simpa using h r (by simp)
    rw [hne]
    simp only [Bool.false_eq_true, if_false]
    exact ih row (fun r2 h2 => h r2 (by simp [h2]))

lemma rowFoldStatus_hit (tNow : ℚ) :
    ∀ (results : List ItemResult) (row : Row) (r : ItemResult),
      (results.map (fun x => x.id)).Nodup → r ∈ results → row.id = r.id →
      (rowFoldStatus tNow results row).status
          = (if r.success then SyncStatus.uploaded else SyncStatus.failed).value
        ∧ (rowFoldStatus tNow results row).last_error
          = (if r.success then none else some (r.error.getD ("Unknown error"))) := by
  intro results
  induction results with
  | nil => intro row r _ hmem; exact absurd hmem (by simp)
  | cons r0 rest ih =>
    intro row r hnd hmem hid
    have hnd2 : (∀ x ∈ rest, ¬x.id = r0.id) ∧ (rest.map (fun x => x.id)).Nodup := by
      simpa using hnd
    rcases List.mem_cons.mp hmem with hr | hr
    · subst hr
      have heq : (row.id == r.id) = true := by simpa using hid
      have hstep : rowFoldStatus tNow (r :: rest) row
          = rowFoldStatus tNow rest
              { row with
                status := (if r.success then SyncStatus.uploaded else SyncStatus.failed).value
                last_error := if r.success then none else some (r.error.getD ("Unknown error"))
                updated_at := tNow
                attempts := row.attempts + 1 } := by
        rw [rowFoldStatus, rowFoldStatus, List.foldl_cons, heq]
        simp
      rw [hstep, rowFoldStatus_miss tNow rest _ ?hm]
      case hm =>
        intro r2 h2 hid2
        exact hnd2.1 r2 h2 (hid2.symm.trans hid)
      constructor <;> rfl
    · have hne : (row.id == r0.id) = false := by
        simp only [beq_eq_false_iff_ne, ne_eq, hid]
        exact fun hcon => hnd2.1 r hr hcon
      rw [rowFoldStatus, List.foldl_cons, hne]
      simp only [Bool.false_eq_true, if_false]
      exact ih row r hnd2.2 hr hid

lemma processResultsFold_store_eq_map (tNow : ℚ) :
    ∀ (results : List ItemResult) (store : List Row) (acc : BatchCounts),
      (processResultsFold tNow store acc results).1
        = store.map (rowFoldStatus tNow results) := by
  intro results
  induction results with
  | nil =>
    intro store acc
    show store = store.map (rowFoldStatus tNow [])
    induction store with
    | nil => rfl
    | cons a t iht =>
      rw [List.map_cons, ← iht]
      rfl
  | cons r rest ih =>
    intro store acc
    rw [processResultsFold]
    by_cases hs : r.success = true
    · rw [if_pos hs, ih, updateItemStatus, List.map_map]
      refine List.map_congr_left ?_
      intro a _
      simp only [Function.comp_apply, rowFoldStatus, List.foldl_cons]
      by_cases h : (a.id == r.id) = true
      · rw [if_pos h, if_pos h]
        simp [hs, SyncStatus.value]
      · rw [if_neg h, if_neg h]
    · rw [if_neg hs, ih, updateItemStatus, List.map_map]
      refine List.map_congr_left ?_
      intro a _
      simp only [Function.comp_apply, rowFoldStatus, List.foldl_cons]
      by_cases h : (a.id == r.id) = true
      · rw [if_pos h, if_pos h]
        simp at hs
        simp [hs, SyncStatus.value]
      · rw [if_neg h, if_neg h]

lemma dirOfValue_value (d : SyncDirection) : syncDirectionOfValue d.value = some d := by
  cases d <;> rfl

lemma statusOfValue_value (s : SyncStatus) : syncStatusOfValue s.value = some s := by
  cases s <;> rfl

/-! ## Claim theorems: the durable store and batch upload -/

/-- C7: when the HTTP request of an upload batch group succeeds, the
status written back for each item is decided individually by that item's
entry in the server's `results` array — `uploaded` with no error on
success, `failed` with the reported (or default) error otherwise (first
conjunct, for any store and any result set with distinct ids); on the
concrete 5-item batch whose server response marks item 3 failed, the
final statuses are exactly [uploaded, uploaded, failed, uploaded,
uploaded] and the returned `SyncResult` counts 4 processed / 1 failed —
not a whole-batch failure of the items. -/
theorem c7_batch_statuses_per_item :
    (∀ (tNow : ℚ) (store : List Row) (acc : BatchCounts) (results : List ItemResult)
        (r : ItemResult) (row : Row),
      (results.map (fun x => x.id)).Nodup → r ∈ results →
      row ∈ (processResultsFold tNow store acc results).1 → row.id = r.id →
      row.status = (if r.success then SyncStatus.uploaded else SyncStatus.failed).value
      ∧ row.last_error = (if r.success then none
          else some (r.error.getD ("Unknown error"))))
    ∧ ((processUploadBatch
          [⟨"i1", "combat_run", "upload", "pending", .jnull, some ("c1"), 0, 0, 0, none⟩,
           ⟨"i2", "combat_run", "upload", "pending", .jnull, some ("c2"), 0, 0, 0, none⟩,
           ⟨"i3", "combat_run", "upload", "pending", .jnull, some ("c3"), 0, 0, 0, none⟩,
           ⟨"i4", "combat_run", "upload", "pending", .jnull, some ("c4"), 0, 0, 0, none⟩,
           ⟨"i5", "combat_run", "upload", "pending", .jnull, some ("c5"), 0, 0, 0, none⟩]
          [⟨"i1", "combat_run", .jnull, .upload, .pending, 0, 0, 0, none, some ("c1")⟩,
           ⟨"i2", "combat_run", .jnull, .upload, .pending, 0, 0, 0, none, some ("c2")⟩,
           ⟨"i3", "combat_run", .jnull, .upload, .pending, 0, 0, 0, none, some ("c3")⟩,
           ⟨"i4", "combat_run", .jnull, .upload, .pending, 0, 0, 0, none, some ("c4")⟩,
           ⟨"i5", "combat_run", .jnull, .upload, .pending, 0, 0, 0, none, some ("c5")⟩]
          (fun _ _ => .ok [⟨"i1", true, none⟩, ⟨"i2", true, none⟩,
            ⟨"i3", false, some ("boom")⟩, ⟨"i4", true, none⟩, ⟨"i5", true, none⟩])
          7).1.map (fun r => r.status)
        = ["uploaded", "uploaded", "failed", "uploaded", "uploaded"])
    ∧ (processUploadBatch
          [⟨"i1", "combat_run", "upload", "pending", .jnull, some ("c1"), 0, 0, 0, none⟩,
           ⟨"i2", "combat_run", "upload", "pending", .jnull, some ("c2"), 0, 0, 0, none⟩,
           ⟨"i3", "combat_run", "upload", "pending", .jnull, some ("c3"), 0, 0, 0, none⟩,
           ⟨"i4", "combat_run", "upload", "pending", .jnull, some ("c4"), 0, 0, 0, none⟩,
           ⟨"i5", "combat_run", "upload", "pending", .jnull, some ("c5"), 0, 0, 0, none⟩]
          [⟨"i1", "combat_run", .jnull, .upload, .pending, 0, 0, 0, none, some ("c1")⟩,
           ⟨"i2", "combat_run", .jnull, .upload, .pending, 0, 0, 0, none, some ("c2")⟩,
           ⟨"i3", "combat_run", .jnull, .upload, .pending, 0, 0, 0, none, some ("c3")⟩,
           ⟨"i4", "combat_run", .jnull, .upload, .pending, 0, 0, 0, none, some ("c4")⟩,
           ⟨"i5", "combat_run", .jnull, .upload, .pending, 0, 0, 0, none, some ("c5")⟩]
          (fun _ _ => .ok [⟨"i1", true, none⟩, ⟨"i2", true, none⟩,
            ⟨"i3", false, some ("boom")⟩, ⟨"i4", true, none⟩, ⟨"i5", true, none⟩])
          7).2
        = ⟨false, 4, 1, [("i3: boom")]⟩ := by
  refine ⟨?_, rfl, rfl⟩
  intro tNow store acc results r row hnd hmem hrow hid
  rw [processResultsFold_store_eq_map tNow results store acc] at hrow
  obtain ⟨row0, hrow0, hrow0e⟩ := List.mem_map.mp hrow
  have hid0 : row0.id = r.id := by
    rw [← hid, ← hrow0e]
    exact (rowFoldStatus_id tNow results row0).symm
  have hhit := rowFoldStatus_hit tNow results row0 r hnd hmem hid0
  rw [← hrow0e]
  exact hhit

/-- C7, witness: a one-item store whose only server result reports
failure ends with that row failed. -/
theorem c7_batch_statuses_per_item_witness :
    (⟨"a", "t", "upload", "failed", .jnull, some ("c"), 0, 7, 1,
        some ("Unknown error")⟩ : Row).status
      = (if (⟨"a", false, none⟩ : ItemResult).success then SyncStatus.uploaded
          else SyncStatus.failed).value
    ∧ (⟨"a", "t", "upload", "failed", .jnull, some ("c"), 0, 7, 1,
        some ("Unknown error")⟩ : Row).last_error
      = (if (⟨"a", false, none⟩ : ItemResult).success then none
          else some ((⟨"a", false, none⟩ : ItemResult).error.getD ("Unknown error"))) := by
  refine c7_batch_statuses_per_item.1 7
    [⟨"a", "t", "upload", "pending", .jnull, some ("c"), 0, 0, 0, none⟩]
    ⟨0, 0, []⟩ [⟨"a", false, none⟩] ⟨"a", false, none⟩ _
    (by simp) (by simp) ?_ rfl
  exact List.mem_singleton.mpr rfl

/-- C9: the checksum of a `SyncItem` is computed exactly once at
creation from the canonical JSON encoding of its payload
(`__post_init__` fills it only when missing and keeps a provided one),
and `update_item_status` changes only status, last_error, updated_at and
attempts — id, item_type, direction, data, checksum and created_at of
every row are untouched — while `enqueue` stores the checksum verbatim. -/
theorem c9_checksum_created_once_never_updated :
    (∀ (id ty : String) (data : PyJson) (dir : SyncDirection) (st : SyncStatus)
        (ca ua : ℚ) (att : ℕ) (le : Option String),
      (mkSyncItem id ty data dir st ca ua att le none).checksum
        = some (calculateChecksum data))
    ∧ (∀ (id ty : String) (data : PyJson) (dir : SyncDirection) (st : SyncStatus)
        (ca ua : ℚ) (att : ℕ) (le : Option String) (c : String),
      (mkSyncItem id ty data dir st ca ua att le (some c)).checksum = some c)
    ∧ (∀ (store : List Row) (item_id : String) (st : SyncStatus) (err : Option String)
        (t : ℚ),
      (updateItemStatus store item_id st err t).map
          (fun r => (r.id, r.item_type, r.direction, r.data, r.checksum, r.created_at))
        = store.map
          (fun r => (r.id, r.item_type, r.direction, r.data, r.checksum, r.created_at)))
    ∧ (∀ item : SyncItem, (rowOf item).checksum = item.checksum) := by
  refine ⟨fun _ _ _ _ _ _ _ _ _ => rfl, fun _ _ _ _ _ _ _ _ _ _ => rfl, ?_, fun _ => rfl⟩
  intro store item_id st err t
  rw [updateItemStatus, List.map_map]
  refine List.map_congr_left ?_
  intro a _
  by_cases h : (a.id == item_id) = true
  · simp only [Function.comp_apply, if_pos h]
  · simp only [Function.comp_apply, if_neg h]

/-- C10: enqueueing a `SyncItem` (whose checksum, per `__post_init__`,
is present) into a store holding no other row with the same direction
and status, then dequeueing a batch of at least one item for that
direction and status, returns exactly that item, equal in every field:
id, item_type, data, direction, status, created_at, updated_at,
attempts, last_error and checksum. -/
theorem c10_enqueue_dequeue_roundtrip (store : List Row) (item : SyncItem) (limit : ℕ)
    (hno : ∀ r ∈ store,
      ¬(r.direction = item.direction.value ∧ r.status = item.status.value))
    (hchk : item.checksum.isSome = true) (hlim : 1 ≤ limit) :
    dequeueBatch (enqueue store item) item.direction item.status limit = .ok [item] := by
  obtain ⟨c, hc⟩ := Option.isSome_iff_exists.mp hchk
  unfold dequeueBatch enqueue
  dsimp only
  have hfilter : (store.filter (fun r => !(r.id == item.id)) ++ [rowOf item]).filter
      (fun r => r.direction == item.direction.value && r.status == item.status.value)
      = [rowOf item] := by
    rw [List.filter_append]
    have h1 : (store.filter (fun r => !(r.id == item.id))).filter
        (fun r => r.direction == item.direction.value && r.status == item.status.value)
        = [] := by
      rw [List.filter_eq_nil_iff]
      intro a ha
      have ham : a ∈ store := (List.mem_filter.mp ha).1
      have hnc := hno a ham
      simp only [Bool.and_eq_true, beq_iff_eq]
      exact fun hcon => hnc ⟨hcon.1, hcon.2⟩
    have h2 : ([rowOf item]).filter
        (fun r => r.direction == item.direction.value && r.status == item.status.value)
        = [rowOf item] := by
      simp [rowOf]
    rw [h1, h2]
    simp
  rw [hfilter]
  have hsort : sortRows [rowOf item] = [rowOf item] := rfl
  rw [hsort]
  obtain ⟨k, rfl⟩ : ∃ k, limit = k + 1 := ⟨limit - 1, by omega⟩
  have htake : ([rowOf item]).take (k + 1) = [rowOf item] := by simp
  rw [htake]
  have hdec : decodeRow (rowOf item) = .ok item := by
    obtain ⟨iid, ity, idata, idir, ist, ica, iua, iatt, ile, ichk⟩ := item
    unfold decodeRow rowOf
    dsimp only
    rw [dirOfValue_value, statusOfValue_value]
    unfold mkSyncItem
    dsimp only at hc ⊢
    rw [hc]
  simp [List.mapM.loop, hdec]

/-- C10, witness: the round trip on a concrete item through the empty
store. -/
theorem c10_enqueue_dequeue_roundtrip_witness :
    dequeueBatch
        (enqueue []
          (⟨"a", "t", .jnull, .upload, .pending, 0, 0, 0, none, some ("c")⟩ : SyncItem))
        SyncDirection.upload SyncStatus.pending 1
      = .ok [⟨"a", "t", .jnull, .upload, .pending, 0, 0, 0, none, some ("c")⟩] := by
  exact c10_enqueue_dequeue_roundtrip []
    (⟨"a", "t", .jnull, .upload, .pending, 0, 0, 0, none, some ("c")⟩ : SyncItem) 1
    (by simp) rfl (by norm_num)

end ESOBO
